import Mathlib

/-!
pubsub-go: the bounded subscription consumer, publisher and listers of `main.go`.

The development embeds the functions of `main.go` (`main`, `list`,
`listSubscription`, `publish`, `pullMsgs`) as Lean functions over explicit
state.  The Pub/Sub client library is an external collaborator: every call
into it is recorded as an `Event` of an effect trace and its answer is a
parameter of the embedding.
-/

namespace PubsubGo

/-! ## Data model -/

/-- Go `error` values as far as the program inspects them: the sentinel
`iterator.Done`, or any other error, identified by its text (`%v`). A `nil`
error is `none : Option GoError`. -/
inductive GoError where
  | iteratorDone
  | other (text : String)
  deriving DecidableEq, Repr

/-- The fields of `pubsub.Message` the program touches: `ID`, and `Data`
(read through `string(msg.Data)`). -/
structure Message where
  ID : String
  Data : String
  deriving DecidableEq, Repr

/-- Observable effects, in the order the program performs them. -/
inductive Event where
  /-- Call of `msg.Ack()` on the given delivery. -/
  | ack (msg : Message)
  /-- Call of `fmt.Printf(format, arg)`, on stdout. -/
  | printf (format : String) (arg : String)
  /-- Call of `fmt.Println(arg)`, on stdout. -/
  | println (arg : String)
  /-- Call of `fmt.Fprint(os.Stderr, text)`. -/
  | stderr (text : String)
  /-- Call of `log.Fatalf(format, err)`: the diagnostic, followed by `os.Exit(1)`. -/
  | fatalf (format : String) (err : GoError)
  /-- Call of `log.Fatal(err)`: the diagnostic, followed by `os.Exit(1)`. -/
  | fatal (err : GoError)
  /-- Call of `mu.Lock()`. -/
  | lock
  /-- The statement `received++`. -/
  | incr
  /-- Call of `cancel()`. -/
  | cancel
  /-- The deferred `mu.Unlock()`. -/
  | unlock
  /-- Call of `pubsub.NewClient(ctx, proj)`. -/
  | newClient (proj : String)
  /-- Call of `client.Topics(ctx)`. -/
  | listTopics
  /-- Call of `client.Topic(topicID).Subscriptions(ctx)`. -/
  | listSubscriptions (topicID : String)
  /-- One call of `it.Next()`. -/
  | next
  /-- Call of `client.Topic(topicId).Publish` with a message whose `Data` is `[]byte(msg)`. -/
  | publish (topicId : String) (data : String)
  /-- Call of `result.Get(ctx)`. -/
  | get
  /-- Call of `sub.Receive(cctx, callback)` on `client.Subscription(subName)`. -/
  | receive (subName : String)
  deriving DecidableEq, Repr

/-! ## Go's `int` -/

/-- The size of Go's `int` on the platform: 32 or 64 bits. -/
inductive IntSize where
  | bits32
  | bits64
  deriving DecidableEq, Repr

/-- Number of bits of the platform's `int`. -/
def IntSize.bits : IntSize → Nat
  | IntSize.bits32 => 32
  | IntSize.bits64 => 64

/-- The value of Go's `int` that the integer `x` stands for: two's
complement wrap-around into `-2 ^ (bits - 1) .. 2 ^ (bits - 1) - 1`. -/
def wrapInt (size : IntSize) (x : Int) : Int :=
  (x + 2 ^ (size.bits - 1)) % 2 ^ size.bits - 2 ^ (size.bits - 1)

/-! ## `pullMsgs`: the receive callback, run to completion -/

/-- The variables the callback of `pullMsgs` closes over (`received`; the
mutex `mu` and `cancel` are visible through the trace), with the trace of
effects performed so far, oldest first. `received` is a Go `int`: a value
in the range of `wrapInt`. -/
structure PullState where
  received : Int
  trace : List Event
  deriving DecidableEq, Repr

/-- Record one effect. -/
def PullState.emit (s : PullState) (e : Event) : PullState :=
  { s with trace := s.trace ++ [e] }

/-- The state at `sub.Receive`: `received := 0`, nothing done yet. -/
def PullState.init : PullState := { received := 0, trace := [] }

/-- Number of `cancel()` calls performed so far. -/
def PullState.cancels (s : PullState) : Nat := s.trace.count Event.cancel

/-- Is the effect a `msg.Ack()`. -/
def Event.isAck : Event → Bool
  | Event.ack _ => true
  | _ => false

/-- Number of `msg.Ack()` calls performed so far. -/
def PullState.acks (s : PullState) : Nat := s.trace.countP Event.isAck

/-- Number of `received++` performed so far. -/
def PullState.incrs (s : PullState) : Nat := s.trace.count Event.incr

/-- The function literal passed to `sub.Receive` (main.go 121-130), one
invocation run from entry to return:
`msg.Ack(); fmt.Printf(...); mu.Lock(); defer mu.Unlock(); received++;
if received == 10 { cancel() }`. The increment is that of a Go `int` of
size `size`: it wraps around at `2 ^ (bits - 1)`. -/
def callback (size : IntSize) (msg : Message) (s : PullState) : PullState :=
  let s : PullState := s.emit (Event.ack msg)
  let s : PullState := s.emit (Event.printf "Got message: %q\n" msg.Data)
  let s : PullState := s.emit Event.lock
  let s : PullState := { s.emit Event.incr with received := wrapInt size (s.received + 1) }
  let s : PullState := if s.received = 10 then s.emit Event.cancel else s
  s.emit Event.unlock

/-- Completed callback invocations, one delivery after the other. -/
def deliver (size : IntSize) (msgs : List Message) (s : PullState) : PullState :=
  msgs.foldl (fun s m => callback size m s) s

/-- The effects of one invocation alone: what `callback` appends when it is
entered with the counter at `received`. -/
def callbackTrace (size : IntSize) (msg : Message) (received : Int) : List Event :=
  (callback size msg { received := received, trace := [] }).trace

/-- Number of completed callback invocations: each one ends with the
deferred `mu.Unlock()`. -/
def PullState.completed (s : PullState) : Nat := s.trace.count Event.unlock

/-! ## `pullMsgs`: the streaming receive call -/

/-- A behaviour of `sub.Receive(cctx, f)`, the library's streaming pull: it
either returns (`ret err`), or invokes `f` on a delivery and goes on,
knowing whether `cctx` has been cancelled by then. The library reaches the
variables of `pullMsgs` only through `f`. -/
inductive Receive where
  | ret (err : Option GoError)
  | call (msg : Message) (next : Bool → Receive)

/-- Run a behaviour of `Receive` with callback `f`. -/
def Receive.run (f : Message → PullState → PullState) : Receive → PullState → PullState × Option GoError
  | Receive.ret err, s => (s, err)
  | Receive.call msg next, s =>
    let s : PullState := f msg s
    Receive.run f (next (decide (0 < s.cancels))) s

/-- The simulated transport: it delivers `msgs` one after the other, whatever
the cancellation state, and then returns `err`. -/
def Receive.script : List Message → Option GoError → Receive
  | [], err => Receive.ret err
  | m :: rest, err => Receive.call m (fun _ => Receive.script rest err)

/-- What `pullMsgs` leaves behind: its return value `err` (`none` is `nil`)
and the final state of its variables and effects. -/
structure PullResult where
  err : Option GoError
  state : PullState

/-- Function `pullMsgs` (main.go 114-137); `size` is the size of the
platform's `int`, `receive` the behaviour of
`client.Subscription(subName).Receive`. The parameter `topic` is unused in
the source and left out. -/
def pullMsgs (size : IntSize) (receive : String → Receive) (subName : String) : PullResult :=
  let s : PullState := PullState.init
  let s : PullState := s.emit (Event.receive subName)
  let r := (receive subName).run (callback size) s
  match r.2 with
  | some err => { err := some err, state := r.1 }
  | none => { err := none, state := r.1 }

/-! ## `publish` -/

/-- What `publish` leaves behind: its return value and its effects. -/
structure PublishResult where
  err : Option GoError
  trace : List Event
  deriving DecidableEq, Repr

/-- Function `publish` (main.go 99-112); `get topicId data` is the pair
`(id, err)` that `result.Get(ctx)` returns for the message published to
`topicId`. The payload `[]byte(msg)` is carried as the string it encodes. -/
def publish (get : String → String → String × Option GoError) (topicId : String) (msg : String) :
    PublishResult :=
  let trace : List Event := [Event.publish topicId msg]
  let r := get topicId msg
  let trace : List Event := trace ++ [Event.get]
  match r.2 with
  | some err => { err := some err, trace := trace }
  | none =>
    { err := none, trace := trace ++ [Event.printf "Published a message; msg ID: %v\n" r.1] }

/-! ## `list` and `listSubscription` -/

/-- A paginated iterator of the client library: a state and the method
`Next`, which returns the pair `(item, err)` and moves the state. -/
structure Iter (α : Type) where
  σ : Type
  start : σ
  next : σ → (α × Option GoError) × σ

/-- What a lister leaves behind: the slice and error it returns and its
effects (one `Event.next` per call of `Next`). A `nil` slice is `[]`. -/
structure ListResult (α : Type) where
  items : List α
  err : Option GoError
  trace : List Event

/-- The `for` loop shared, word for word, by `list` (main.go 65-76) and
`listSubscription` (main.go 86-96). `fuel` bounds the number of iterations;
`none` is a loop that has not left within `fuel` iterations. -/
def drain {α : Type} (it : Iter α) : Nat → it.σ → List α → List Event → Option (ListResult α)
  | 0, _, _, _ => none
  | fuel + 1, st, acc, trace =>
    let r := it.next st
    let trace : List Event := trace ++ [Event.next]
    if r.1.2 = some GoError.iteratorDone then
      some { items := acc, err := none, trace := trace }
    else
      match r.1.2 with
      | some err => some { items := [], err := some err, trace := trace }
      | none => drain it fuel r.2 (acc ++ [r.1.1]) trace

/-- A `*pubsub.Topic`, by the name `fmt.Println` shows. -/
structure Topic where
  name : String
  deriving DecidableEq, Repr

/-- A `*pubsub.Subscription`, by the name `fmt.Println` shows. -/
structure Subscription where
  name : String
  deriving DecidableEq, Repr

/-- The `*pubsub.Client` as the program uses it. -/
structure Client where
  /-- The iterator `client.Topics(ctx)`. -/
  topics : Iter Topic
  /-- The iterator `client.Topic(topicID).Subscriptions(ctx)`. -/
  subscriptions : String → Iter Subscription
  /-- The pair `result.Get(ctx)` returns after `client.Topic(topicId).Publish(ctx, msg)`. -/
  get : String → String → String × Option GoError
  /-- Behaviour of `client.Subscription(subName).Receive`. -/
  receive : String → Receive

/-- Function `list` (main.go 59-77). -/
def list (client : Client) (fuel : Nat) : Option (ListResult Topic) :=
  drain client.topics fuel client.topics.start [] [Event.listTopics]

/-- Function `listSubscription` (main.go 79-97). -/
def listSubscription (client : Client) (topicID : String) (fuel : Nat) :
    Option (ListResult Subscription) :=
  drain (client.subscriptions topicID) fuel (client.subscriptions topicID).start []
    [Event.listSubscriptions topicID]

/-! ## `main` -/

/-- The process environment of `main`: the size of the platform's `int`,
`os.Getenv` and `pubsub.NewClient`, which returns the pair `(client, err)`. -/
structure World where
  intSize : IntSize
  getenv : String → String
  newClient : String → Client × Option GoError

/-- How the process ends: its exit status (`os.Exit(1)`, also through
`log.Fatalf` and `log.Fatal`; 0 when `main` returns) and its effects. -/
structure Process where
  status : Nat
  trace : List Event
  deriving DecidableEq, Repr

/-- Function `main` (main.go 17-57). `fuel` bounds the iterations of each
listing loop; `none` is a listing that has not finished within it. The
handle `t := client.Topic("my-topic")` of line 53 has no effect and is passed
to a parameter `pullMsgs` does not use. -/
def main (w : World) (fuel : Nat) : Option Process :=
  let proj := w.getenv "GOOGLE_CLOUD_PROJECT"
  if proj = "" then
    some { status := 1,
           trace := [Event.stderr "GOOGLE_CLOUD_PROJECT environment variable must be set.\n"] }
  else
    let c := w.newClient proj
    let trace : List Event := [Event.newClient proj]
    match c.2 with
    | some err =>
      some { status := 1, trace := trace ++ [Event.fatalf "Could not create pubsub Client: %v" err] }
    | none =>
      let client := c.1
      let trace : List Event := trace ++ [Event.println "Listing all topics from the project:"]
      match list client fuel with
      | none => none
      | some topics =>
        let trace : List Event := trace ++ topics.trace
        match topics.err with
        | some err =>
          some { status := 1, trace := trace ++ [Event.fatalf "Failed to list topics: %v" err] }
        | none =>
          let trace : List Event := trace ++ topics.items.map (fun t => Event.println t.name)
          let trace : List Event :=
            trace ++ [Event.println "Listing all subscriptions from the project:"]
          match listSubscription client "my-topic" fuel with
          | none => none
          | some subs =>
            let trace : List Event := trace ++ subs.trace
            match subs.err with
            | some err =>
              some { status := 1,
                     trace := trace ++ [Event.fatalf "Failed to listSubscriptions: %v" err] }
            | none =>
              let trace : List Event := trace ++ subs.items.map (fun s => Event.println s.name)
              let trace : List Event := trace ++ [Event.println "PUBLISH:"]
              let pub := publish client.get "my-topic" "hello world!"
              let trace : List Event := trace ++ pub.trace
              match pub.err with
              | some err =>
                some { status := 1, trace := trace ++ [Event.fatalf "Failed to publish: %v" err] }
              | none =>
                let pull := pullMsgs w.intSize client.receive "my-sub"
                let trace : List Event := trace ++ pull.state.trace
                match pull.err with
                | some err => some { status := 1, trace := trace ++ [Event.fatal err] }
                | none => some { status := 0, trace := trace }

/-- The calls that start a step of `main`: client creation and the four
broker operations. -/
def Event.isStep : Event → Bool
  | Event.newClient _ => true
  | Event.listTopics => true
  | Event.listSubscriptions _ => true
  | Event.publish _ _ => true
  | Event.receive _ => true
  | _ => false

/-- The diagnostics written before `os.Exit(1)`. -/
def Event.isDiagnostic : Event → Bool
  | Event.stderr _ => true
  | Event.fatalf _ _ => true
  | Event.fatal _ => true
  | _ => false

/-- The steps a trace has started, in order. -/
def steps (trace : List Event) : List Event := trace.filter Event.isStep

/-- The steps of a complete run of `main`, in order, for project `proj`. -/
def plan (proj : String) : List Event :=
  [Event.newClient proj, Event.listTopics, Event.listSubscriptions "my-topic",
   Event.publish "my-topic" "hello world!", Event.receive "my-sub"]

/-! ## The receive callback under concurrent deliveries -/

/-- Where a running invocation of the callback stands: the statement it
executes next. `ack` is `msg.Ack()` (main.go 122), `print` the `fmt.Printf`
(123), `lock` is `mu.Lock()` (124), `load` and `store` are the read and the
write of `received++` (126), `test` is the comparison `received == 10`
(127), `cancel` the call `cancel()` (128), `unlock` the deferred
`mu.Unlock()` (125), `done` the return. -/
inductive Pc where
  | ack | print | lock | load | store | test | cancel | unlock | done
  deriving DecidableEq, Repr

/-- One invocation of the callback in flight: its position and the value
it read from `received`. -/
structure Worker where
  pc : Pc
  tmp : Int
  deriving DecidableEq, Repr

/-- The variables shared by the invocations (`received`, a Go `int`, and the
mutex `mu`), the number of `cancel()` and `msg.Ack()` calls made, and the
invocations. -/
structure Conc where
  received : Int
  locked : Bool
  cancels : Nat
  acks : Nat
  workers : List Worker
  deriving DecidableEq, Repr

/-- Move worker `i` to position `pc`. -/
def Conc.goto (s : Conc) (i : Nat) (w : Worker) (pc : Pc) : Conc :=
  { s with workers := s.workers.set i { w with pc := pc } }

/-- One statement of worker `i`; `none` when there is no such worker, when
it has returned, or when it waits in `mu.Lock()` for a held mutex. The
write of `received++` is that of a Go `int` of size `size`. -/
def Conc.step (size : IntSize) (s : Conc) (i : Nat) : Option Conc :=
  match s.workers[i]? with
  | none => none
  | some w =>
    match w.pc with
    | Pc.ack => some ({ s with acks := s.acks + 1 }.goto i w Pc.print)
    | Pc.print => some (s.goto i w Pc.lock)
    | Pc.lock => if s.locked then none else some ({ s with locked := true }.goto i w Pc.load)
    | Pc.load => some (s.goto i { w with tmp := s.received } Pc.store)
    | Pc.store => some ({ s with received := wrapInt size (w.tmp + 1) }.goto i w Pc.test)
    | Pc.test => some (s.goto i w (if s.received = 10 then Pc.cancel else Pc.unlock))
    | Pc.cancel => some ({ s with cancels := s.cancels + 1 }.goto i w Pc.unlock)
    | Pc.unlock => some ({ s with locked := false }.goto i w Pc.done)
    | Pc.done => none

/-- An interleaving: the workers that move, in order. `none` when one of
them cannot move at its turn. -/
def Conc.exec (size : IntSize) : List Nat → Conc → Option Conc
  | [], s => some s
  | i :: rest, s => (s.step size i).bind (Conc.exec size rest)

/-- The state in which `n` deliveries have been handed to `n` concurrent
invocations of the callback, none of which has run yet. -/
def Conc.init (n : Nat) : Conc :=
  { received := 0, locked := false, cancels := 0, acks := 0,
    workers := List.replicate n { pc := Pc.ack, tmp := 0 } }

/-- Every invocation has returned. -/
def Conc.allDone (s : Conc) : Prop := ∀ w ∈ s.workers, w.pc = Pc.done

instance (s : Conc) : Decidable s.allDone := by
  unfold Conc.allDone
  exact inferInstance

/-- The positions between `mu.Lock()` and the deferred `mu.Unlock()`. -/
def Pc.inCritical : Pc → Bool
  | Pc.load | Pc.store | Pc.test | Pc.cancel | Pc.unlock => true
  | _ => false

/-- Number of workers inside the critical section. -/
def Conc.critical (s : Conc) : Nat := s.workers.countP (fun w => w.pc.inCritical)

/-! ## Order of effects and sample inputs -/

/-- In trace `l`, effect `a` occurs, and occurs before the first `b`. -/
def precedes (a b : Event) (l : List Event) : Prop :=
  l.indexOf a < l.indexOf b ∧ l.indexOf b < l.length

instance (a b : Event) (l : List Event) : Decidable (precedes a b l) := by
  unfold precedes
  exact inferInstance

/-- Deliveries `m0, m1, ..., m(n-1)`. -/
def sampleMsgs (n : Nat) : List Message :=
  (List.range n).map (fun i => { ID := toString i, Data := "payload" })

/-- Is the effect a call of `sub.Receive`. -/
def Event.isReceive : Event → Bool
  | Event.receive _ => true
  | _ => false

/-- Is the effect a call of `t.Publish`. -/
def Event.isPublish : Event → Bool
  | Event.publish _ _ => true
  | _ => false

/-- A broker whose confirmation future yields identifier `id`. -/
def confirms (id : String) : String → String → String × Option GoError :=
  fun _ _ => (id, none)

/-- A broker whose confirmation future fails with `err`. -/
def rejects (err : GoError) : String → String → String × Option GoError :=
  fun _ _ => ("", some err)

/-- The first `n` answers of `Next` from state `st` on. -/
def Iter.results {α : Type} (it : Iter α) : Nat → it.σ → List (α × Option GoError)
  | 0, _ => []
  | n + 1, st => (it.next st).1 :: Iter.results it n (it.next st).2

/-- The iterator that gives the answers of a list in order, and `Done`
(with item `dflt`) ever after. -/
def Iter.ofList {α : Type} (dflt : α) (answers : List (α × Option GoError)) : Iter α :=
  { σ := List (α × Option GoError)
    start := answers
    next := fun st =>
      match st with
      | [] => ((dflt, some GoError.iteratorDone), [])
      | r :: rest => (r, rest) }

/-- A client whose topic listing answers `topics`, whose subscription
listing answers `subs` for every topic, whose broker answers `get` to a
publish, and whose receive call behaves as `receive`. -/
def sampleClient (topics : List (Topic × Option GoError))
    (subs : List (Subscription × Option GoError))
    (get : String × Option GoError) (receive : Receive) : Client :=
  { topics := Iter.ofList ⟨""⟩ topics
    subscriptions := fun _ => Iter.ofList ⟨""⟩ subs
    get := fun _ _ => get
    receive := fun _ => receive }

/-- A client whose topic listing fails with "unavailable" after two topics
and whose topic has the subscriptions s1 and s2. -/
def flakyClient : Client :=
  sampleClient [(⟨"t1"⟩, none), (⟨"t2"⟩, none), (⟨""⟩, some (GoError.other "unavailable"))]
    [(⟨"s1"⟩, none), (⟨"s2"⟩, none)] ("id-1", none) (Receive.ret none)

/-- The diagnostics a trace has written, in order. -/
def diagnostics (trace : List Event) : List Event := trace.filter Event.isDiagnostic

/-- The project identifier `main` reads. -/
def World.proj (w : World) : String := w.getenv "GOOGLE_CLOUD_PROJECT"

/-- The client `main` works with. -/
def World.client (w : World) : Client := (w.newClient w.proj).1

/-! ## Invariant of the concurrent callback -/

/-- One at the positions after the write of `received++`, zero elsewhere. -/
def Pc.counted : Pc → Nat
  | Pc.test | Pc.cancel | Pc.unlock | Pc.done => 1
  | _ => 0

/-- One at the positions between `mu.Lock()` and `mu.Unlock()`, zero elsewhere. -/
def Pc.holding : Pc → Nat
  | Pc.load | Pc.store | Pc.test | Pc.cancel | Pc.unlock => 1
  | _ => 0

/-- One at the positions where the write is done and the comparison or the
call of `cancel()` it leads to is still to come, zero elsewhere. -/
def Pc.pending : Pc → Nat
  | Pc.test | Pc.cancel => 1
  | _ => 0

/-- One at the positions after `msg.Ack()`, zero at the first. -/
def Pc.acked : Pc → Nat
  | Pc.ack => 0
  | _ => 1

/-- Statements a worker at this position has still to execute, at most. -/
def Pc.rank : Pc → Nat
  | Pc.ack => 8
  | Pc.print => 7
  | Pc.lock => 6
  | Pc.load => 5
  | Pc.store => 4
  | Pc.test => 3
  | Pc.cancel => 2
  | Pc.unlock => 1
  | Pc.done => 0

/-- Sum of `f` over the positions of the workers. -/
def total (f : Pc → Nat) (ws : List Worker) : Nat := (ws.map (fun w => f w.pc)).sum

/-- What holds in every state the workers can reach: the counter is the
number of writes done, as a Go `int`; the mutex is held exactly when a
worker is in the critical section; a worker about to write has read the
current counter; a worker about to call `cancel()` has seen 10; as long as
the writes are too few for the counter to come back to 10, `cancel()` has
been called once the tenth write has been followed by its comparison and
call, and not before or again. -/
structure Conc.Inv (size : IntSize) (s : Conc) : Prop where
  received : s.received = wrapInt size (total Pc.counted s.workers)
  mutex : total Pc.holding s.workers = if s.locked then 1 else 0
  tmp : ∀ w ∈ s.workers, w.pc = Pc.store → w.tmp = s.received
  ten : ∀ w ∈ s.workers, w.pc = Pc.cancel → s.received = 10
  cancels : (s.workers.length : Int) < 2 ^ size.bits + 10 →
    s.cancels =
      if 10 < total Pc.counted s.workers ∨
          (total Pc.counted s.workers = 10 ∧ total Pc.pending s.workers = 0) then 1 else 0
  acks : s.acks = total Pc.acked s.workers

/-- An interleaving of 11 concurrent deliveries: every worker acknowledges,
then every worker prints, then the workers 10, 9, ..., 0 pass the critical
section one after the other; worker 1 is the tenth to do so and calls
`cancel()`. -/
def sampleSchedule : List Nat :=
  List.range 11 ++ List.range 11 ++
    (List.range 11).reverse.flatMap (fun i => List.replicate (if i = 1 then 6 else 5) i)

/-- The state `sampleSchedule` ends in: worker `i` has read `10 - i`. -/
def sampleFinal : Conc :=
  { received := 11, locked := false, cancels := 1, acks := 11,
    workers := (List.range 11).map (fun (i : Nat) => ({ pc := Pc.done, tmp := 10 - (i : Int) } : Worker)) }

/-! ## Sample process environments -/

/-- A process environment with the project identifier unset. -/
def unsetWorld : World :=
  { intSize := IntSize.bits64, getenv := fun _ => "", newClient := fun _ => (flakyClient, none) }

/-- A process environment with project "demo" and the client `flakyClient`. -/
def flakyWorld : World :=
  { intSize := IntSize.bits64
    getenv := fun name => if name = "GOOGLE_CLOUD_PROJECT" then "demo" else "",
    newClient := fun _ => (flakyClient, none) }

/-- A process environment with project "demo" in which every step succeeds:
one topic, one subscription, a confirmed publish and 12 deliveries. -/
def healthyWorld : World :=
  { intSize := IntSize.bits32
    getenv := fun name => if name = "GOOGLE_CLOUD_PROJECT" then "demo" else "",
    newClient := fun _ =>
      (sampleClient [(⟨"t1"⟩, none)] [(⟨"s1"⟩, none)] ("id-1", none)
        (Receive.script (sampleMsgs 12) none), none) }

/-! ## Go's `int` -/

theorem wrapInt_add_wrap (size : IntSize) (a n : Int) :
    wrapInt size (wrapInt size a + n) = wrapInt size (a + n) := by
  cases size <;> simp only [wrapInt, IntSize.bits] <;> norm_num <;> omega

theorem wrapInt_zero (size : IntSize) : wrapInt size 0 = 0 := by
  cases size <;> decide

/-- Counts below `2 ^ (bits - 1)` are their own value as a Go `int`. -/
theorem wrapInt_of_lt (size : IntSize) (k : Nat) (h : (k : Int) < 2 ^ (size.bits - 1)) :
    wrapInt size k = k := by
  cases size <;> simp only [wrapInt, IntSize.bits] at * <;> norm_num at * <;> omega

/-- A count never shows as more than it is. -/
theorem wrapInt_le (size : IntSize) (k : Nat) : wrapInt size k ≤ k := by
  cases size <;> simp only [wrapInt, IntSize.bits] <;> norm_num <;> omega

/-- Below `2 ^ bits + 10` the only count that shows as 10 is 10. -/
theorem wrapInt_eq_ten_iff (size : IntSize) (k : Nat) (h : (k : Int) < 2 ^ size.bits + 10) :
    wrapInt size k = 10 ↔ k = 10 := by
  cases size <;> simp only [wrapInt, IntSize.bits] at * <;> norm_num at * <;> omega

/-! ## Lemmas on the callback run to completion -/

@[simp] theorem PullState.emit_trace (s : PullState) (e : Event) :
    (s.emit e).trace = s.trace ++ [e] := rfl

@[simp] theorem PullState.emit_received (s : PullState) (e : Event) :
    (s.emit e).received = s.received := rfl

/-- The effects of one invocation, spelled out. -/
theorem callbackTrace_eq (size : IntSize) (msg : Message) (r : Int) :
    callbackTrace size msg r =
      [Event.ack msg, Event.printf "Got message: %q\n" msg.Data, Event.lock, Event.incr] ++
        (if wrapInt size (r + 1) = 10 then [Event.cancel] else []) ++ [Event.unlock] := by
  unfold callbackTrace callback
  by_cases h : wrapInt size (r + 1) = 10 <;> simp [h, PullState.emit]

/-- One invocation adds one to the counter, as a Go `int`, and appends its
effects. -/
theorem callback_eq (size : IntSize) (msg : Message) (s : PullState) :
    callback size msg s =
      { received := wrapInt size (s.received + 1),
        trace := s.trace ++ callbackTrace size msg s.received } := by
  rw [callbackTrace_eq]
  unfold callback
  by_cases h : wrapInt size (s.received + 1) = 10 <;> simp [h, PullState.emit]

@[simp] theorem deliver_nil (size : IntSize) (s : PullState) : deliver size [] s = s := rfl

@[simp] theorem deliver_cons (size : IntSize) (m : Message) (msgs : List Message)
    (s : PullState) : deliver size (m :: msgs) s = deliver size msgs (callback size m s) := rfl

theorem deliver_append (size : IntSize) (xs ys : List Message) (s : PullState) :
    deliver size (xs ++ ys) s = deliver size ys (deliver size xs s) := by
  simp [deliver, List.foldl_append]

/-- After `n` more deliveries a counter that showed the count `j` shows the
count `j + n`. -/
theorem deliver_received (size : IntSize) (msgs : List Message) (s : PullState) (j : Nat)
    (hs : s.received = wrapInt size j) :
    (deliver size msgs s).received = wrapInt size ((j + msgs.length : Nat) : Int) := by
  induction msgs generalizing s j with
  | nil => simpa using hs
  | cons m rest ih =>
    rw [deliver_cons, ih (callback size m s) (j + 1)]
    · simp only [List.length_cons]
      congr 2
      omega
    · rw [callback_eq]
      show wrapInt size (s.received + 1) = _
      rw [hs, wrapInt_add_wrap]
      push_cast
      rfl

theorem deliver_received_init (size : IntSize) (msgs : List Message) :
    (deliver size msgs PullState.init).received = wrapInt size (msgs.length : Nat) := by
  have h := deliver_received size msgs PullState.init 0
    (by rw [Nat.cast_zero, wrapInt_zero]; rfl)
  rw [h, Nat.zero_add]

theorem callbackTrace_count_cancel (size : IntSize) (msg : Message) (r : Int) :
    (callbackTrace size msg r).count Event.cancel =
      if wrapInt size (r + 1) = 10 then 1 else 0 := by
  rw [callbackTrace_eq]
  by_cases h : wrapInt size (r + 1) = 10 <;> simp [h]

theorem callback_cancels (size : IntSize) (msg : Message) (s : PullState) :
    (callback size msg s).cancels =
      s.cancels + if wrapInt size (s.received + 1) = 10 then 1 else 0 := by
  rw [callback_eq]
  simp only [PullState.cancels, List.count_append, callbackTrace_count_cancel]

/-- As long as the count stays below `2 ^ bits + 10`, a run of deliveries
calls `cancel()` once if the count passes from below 10 to 10 or more, and
not at all otherwise. -/
theorem deliver_cancels (size : IntSize) (msgs : List Message) (s : PullState) (j : Nat)
    (hs : s.received = wrapInt size j)
    (hlt : ((j + msgs.length : Nat) : Int) < 2 ^ size.bits + 10) :
    (deliver size msgs s).cancels =
      s.cancels + if j < 10 ∧ 10 ≤ j + msgs.length then 1 else 0 := by
  induction msgs generalizing s j with
  | nil =>
    have : ¬ (j < 10 ∧ 10 ≤ j + ([] : List Message).length) := by
      simp only [List.length_nil]
      omega
    simp [this]
  | cons m rest ih =>
    have hr : (callback size m s).received = wrapInt size ((j + 1 : Nat) : Int) := by
      rw [callback_eq]
      show wrapInt size (s.received + 1) = _
      rw [hs, wrapInt_add_wrap]
      push_cast
      rfl
    have hlt' : (((j + 1) + rest.length : Nat) : Int) < 2 ^ size.bits + 10 := by
      simp only [List.length_cons] at hlt
      have : j + 1 + rest.length = j + (rest.length + 1) := by omega
      rw [this]
      exact hlt
    have hj : ((j + 1 : Nat) : Int) < 2 ^ size.bits + 10 := by
      have : ((j + 1 : Nat) : Int) ≤ ((j + 1 + rest.length : Nat) : Int) := by
        exact_mod_cast Nat.le_add_right _ _
      omega
    rw [deliver_cons, ih (callback size m s) (j + 1) hr hlt', callback_cancels, hs,
      wrapInt_add_wrap]
    have hiff := wrapInt_eq_ten_iff size (j + 1) hj
    have hcast : ((j : Nat) : Int) + 1 = ((j + 1 : Nat) : Int) := by push_cast; rfl
    rw [hcast]
    simp only [List.length_cons]
    by_cases h10 : wrapInt size ((j + 1 : Nat) : Int) = 10
    · have := hiff.mp h10
      rw [if_pos h10]
      split_ifs <;> omega
    · have : ¬ (j + 1 = 10) := fun h => h10 (hiff.mpr h)
      rw [if_neg h10]
      split_ifs <;> omega

/-- C1 as stated fails on the Go `int`: on a platform with 32-bit `int`,
after 2 ^ 32 + 10 completed invocations the counter has wrapped around and
come back to 10, and `cancel()` has been called twice; the second call is
made by invocation 2 ^ 32 + 10, later than the 10th. -/
theorem cancel_fired_exactly_once_counterexample :
    (deliver IntSize.bits32 (List.replicate (2 ^ 32 + 10) ⟨"id", "data"⟩)
      PullState.init).cancels = 2 ∧
    (deliver IntSize.bits32 (List.replicate (2 ^ 32 + 9) ⟨"id", "data"⟩)
      PullState.init).cancels = 1 ∧
    (deliver IntSize.bits32 (List.replicate (2 ^ 32 + 10) ⟨"id", "data"⟩)
      PullState.init).received = 10 := by
  have h0 : PullState.init.received = wrapInt IntSize.bits32 ((0 : Nat) : Int) := by decide
  have hc0 : PullState.init.cancels = 0 := rfl
  have hpre : (deliver IntSize.bits32 (List.replicate (2 ^ 32 + 9) ⟨"id", "data"⟩)
      PullState.init).cancels = 1 := by
    rw [deliver_cancels IntSize.bits32 _ PullState.init 0 h0
      (by rw [List.length_replicate]; decide), hc0, List.length_replicate]
    decide
  have hrec : (deliver IntSize.bits32 (List.replicate (2 ^ 32 + 9) ⟨"id", "data"⟩)
      PullState.init).received = wrapInt IntSize.bits32 ((2 ^ 32 + 9 : Nat) : Int) := by
    rw [deliver_received_init, List.length_replicate]
  have hsplit : List.replicate (2 ^ 32 + 10) (⟨"id", "data"⟩ : Message) =
      List.replicate (2 ^ 32 + 9) ⟨"id", "data"⟩ ++ [⟨"id", "data"⟩] :=
    List.replicate_succ' (2 ^ 32 + 9) _
  refine ⟨?_, hpre, ?_⟩
  · rw [hsplit, deliver_append, deliver_cons, deliver_nil, callback_cancels, hpre, hrec,
      wrapInt_add_wrap]
    decide
  · rw [deliver_received_init, List.length_replicate]
    decide

/-- C1, amended: with the callback as a step on (received, number of cancel()
calls) from (0, 0), for every N below 2 ^ bits + 10 (bits the size of Go's
int, 32 or 64), after N completed invocations cancel() has been called once
if N >= 10 and never if N < 10; an invocation calls cancel() exactly when
its increment makes received equal to 10, which among these N is the 10th
invocation and no other (so none after it). -/
theorem cancel_fired_exactly_once (size : IntSize) (msgs : List Message)
    (hN : (msgs.length : Int) < 2 ^ size.bits + 10) :
    (PullState.init.received = 0 ∧ PullState.init.cancels = 0) ∧
    (deliver size msgs PullState.init).cancels = (if 10 ≤ msgs.length then 1 else 0) ∧
    (∀ (pre post : List Message) (m : Message), msgs = pre ++ m :: post →
      ((callback size m (deliver size pre PullState.init)).received = 10 ↔
        pre.length + 1 = 10) ∧
      (callbackTrace size m (deliver size pre PullState.init).received).count Event.cancel =
        (if (callback size m (deliver size pre PullState.init)).received = 10 then 1 else 0) ∧
      (callback size m (deliver size pre PullState.init)).cancels =
        (deliver size pre PullState.init).cancels +
          (if pre.length + 1 = 10 then 1 else 0)) := by
  have h0 : PullState.init.received = wrapInt size ((0 : Nat) : Int) := by
    rw [Nat.cast_zero, wrapInt_zero]; rfl
  have hc0 : PullState.init.cancels = 0 := rfl
  refine ⟨⟨rfl, rfl⟩, ?_, ?_⟩
  · rw [deliver_cancels size msgs PullState.init 0 h0 (by rw [Nat.zero_add]; exact hN), hc0]
    split_ifs <;> omega
  · intro pre post m hsplit
    have hlen : pre.length + 1 ≤ msgs.length := by
      rw [hsplit, List.length_append, List.length_cons]
      omega
    have hj : ((pre.length + 1 : Nat) : Int) < 2 ^ size.bits + 10 := by
      have : ((pre.length + 1 : Nat) : Int) ≤ (msgs.length : Int) := by exact_mod_cast hlen
      omega
    have hr : (deliver size pre PullState.init).received = wrapInt size (pre.length : Nat) :=
      deliver_received_init size pre
    have hc : (callback size m (deliver size pre PullState.init)).received =
        wrapInt size ((pre.length + 1 : Nat) : Int) := by
      rw [callback_eq, hr]
      show wrapInt size (wrapInt size _ + 1) = _
      rw [wrapInt_add_wrap]
      push_cast
      rfl
    have hiff := wrapInt_eq_ten_iff size (pre.length + 1) hj
    refine ⟨?_, ?_, ?_⟩
    · rw [hc]
      exact hiff
    · rw [hc, callbackTrace_count_cancel, hr, wrapInt_add_wrap]
      push_cast
      rfl
    · rw [callback_cancels, hr, wrapInt_add_wrap]
      congr 1
      have hcast : ((pre.length : Nat) : Int) + 1 = ((pre.length + 1 : Nat) : Int) := by
        push_cast; rfl
      rw [hcast]
      by_cases h10 : wrapInt size ((pre.length + 1 : Nat) : Int) = 10
      · rw [if_pos h10, if_pos (hiff.mp h10)]
      · rw [if_neg h10, if_neg (fun h => h10 (hiff.mpr h))]

/-- C1, amended, at 15 deliveries on a 64-bit int: exactly one cancel(),
issued by the 10th invocation and not by the 9th or the 11th. -/
theorem cancel_fired_exactly_once_witness :
    (((sampleMsgs 15).length : Nat) : Int) < 2 ^ IntSize.bits64.bits + 10 ∧
    (deliver IntSize.bits64 (sampleMsgs 15) PullState.init).cancels = 1 ∧
    (callback IntSize.bits64 ⟨"9", "payload"⟩
        (deliver IntSize.bits64 (sampleMsgs 9) PullState.init)).cancels =
      (deliver IntSize.bits64 (sampleMsgs 9) PullState.init).cancels + 1 ∧
    (callback IntSize.bits64 ⟨"10", "payload"⟩
        (deliver IntSize.bits64 (sampleMsgs 10) PullState.init)).cancels =
      (deliver IntSize.bits64 (sampleMsgs 10) PullState.init).cancels + 0 ∧
    (callback IntSize.bits64 ⟨"8", "payload"⟩
        (deliver IntSize.bits64 (sampleMsgs 8) PullState.init)).cancels =
      (deliver IntSize.bits64 (sampleMsgs 8) PullState.init).cancels + 0 := by
  have h := cancel_fired_exactly_once IntSize.bits64 (sampleMsgs 15)
    (by simp [sampleMsgs, IntSize.bits])
  have h10 := (h.2.2 (sampleMsgs 9)
    ((List.range 5).map (fun i => ⟨toString (i + 10), "payload"⟩)) ⟨"9", "payload"⟩
    (by decide)).2.2
  have h11 := (h.2.2 (sampleMsgs 10)
    ((List.range 4).map (fun i => ⟨toString (i + 11), "payload"⟩)) ⟨"10", "payload"⟩
    (by decide)).2.2
  have h9 := (h.2.2 (sampleMsgs 8)
    ((List.range 6).map (fun i => ⟨toString (i + 9), "payload"⟩)) ⟨"8", "payload"⟩
    (by decide)).2.2
  refine ⟨by simp [sampleMsgs, IntSize.bits], h.2.1, ?_, ?_, ?_⟩
  · rw [h10]; simp [sampleMsgs]
  · rw [h11]; simp [sampleMsgs]
  · rw [h9]; simp [sampleMsgs]

/-! ## Lemmas on `Receive` and `pullMsgs` -/

/-- Below the greatest `int` the increment adds exactly one. -/
theorem wrapInt_succ (size : IntSize) (x : Int) (hlo : -2 ^ (size.bits - 1) ≤ x)
    (hhi : x < 2 ^ (size.bits - 1) - 1) : wrapInt size (x + 1) = x + 1 := by
  cases size <;> simp only [wrapInt, IntSize.bits] at * <;> norm_num at * <;> omega

/-- At the greatest `int` the increment wraps around to the least. -/
theorem wrapInt_succ_max (size : IntSize) :
    wrapInt size (2 ^ (size.bits - 1) - 1 + 1) = -2 ^ (size.bits - 1) := by
  cases size <;> decide

theorem callback_completed (size : IntSize) (msg : Message) (s : PullState) :
    (callback size msg s).completed = s.completed + 1 := by
  rw [callback_eq, callbackTrace_eq]
  by_cases h : wrapInt size (s.received + 1) = 10 <;>
    simp [h, PullState.completed, List.count_append]

/-- The simulated transport runs the callback on its deliveries in order. -/
theorem Receive.run_script (f : Message → PullState → PullState) (msgs : List Message)
    (err : Option GoError) (s : PullState) :
    (Receive.script msgs err).run f s = (msgs.foldl (fun s m => f m s) s, err) := by
  induction msgs generalizing s with
  | nil => rfl
  | cons m rest ih =>
    simp only [Receive.script, Receive.run, List.foldl_cons]
    exact ih (f m s)

/-- Whatever the library does, the counter moves with the completed
invocations of the callback and with nothing else: it shows their number as
a Go `int`. -/
theorem Receive.run_received (size : IntSize) (rb : Receive) (s : PullState)
    (hs : s.received = wrapInt size s.completed) :
    (rb.run (callback size) s).1.received =
      wrapInt size (rb.run (callback size) s).1.completed := by
  induction rb generalizing s with
  | ret err => exact hs
  | call msg next ih =>
    simp only [Receive.run]
    apply ih
    rw [callback_completed, callback_eq]
    show wrapInt size (s.received + 1) = _
    rw [hs, wrapInt_add_wrap]
    push_cast
    rfl

theorem pullMsgs_err (size : IntSize) (receive : String → Receive) (subName : String) :
    (pullMsgs size receive subName).err =
      ((receive subName).run (callback size)
        (PullState.init.emit (Event.receive subName))).2 := by
  unfold pullMsgs
  simp only
  split <;> simp_all

theorem pullMsgs_state (size : IntSize) (receive : String → Receive) (subName : String) :
    (pullMsgs size receive subName).state =
      ((receive subName).run (callback size)
        (PullState.init.emit (Event.receive subName))).1 := by
  unfold pullMsgs
  simp only
  split <;> rfl

theorem pullMsgs_script (size : IntSize) (receive : String → Receive) (subName : String)
    (msgs : List Message) (err : Option GoError)
    (h : receive subName = Receive.script msgs err) :
    pullMsgs size receive subName =
      { err := err,
        state := deliver size msgs (PullState.init.emit (Event.receive subName)) } := by
  have h1 := pullMsgs_err size receive subName
  have h2 := pullMsgs_state size receive subName
  rw [h, Receive.run_script] at h1 h2
  cases hp : pullMsgs size receive subName with
  | mk e st =>
    rw [hp] at h1 h2
    simp only at h1 h2
    rw [h1, h2]
    rfl

theorem pullMsgs_script_received (size : IntSize) (receive : String → Receive)
    (subName : String) (msgs : List Message) (err : Option GoError)
    (h : receive subName = Receive.script msgs err) :
    (pullMsgs size receive subName).state.received = wrapInt size (msgs.length : Nat) := by
  rw [pullMsgs_script size receive subName msgs err h]
  show (deliver size msgs _).received = _
  rw [deliver_received size msgs _ 0 (by rw [Nat.cast_zero, wrapInt_zero]; rfl), Nat.zero_add]

/-- C2 as stated fails on the Go `int`: on a platform with 32-bit `int` the
invocation entered with the counter at 2 ^ 31 - 1, the one that completes
delivery 2 ^ 31, takes it to -2 ^ 31: no increase by 1, a decrease, and a
counter that is not the number of completed deliveries. -/
theorem received_counts_completed_deliveries_counterexample :
    (deliver IntSize.bits32 (List.replicate (2 ^ 31 - 1) ⟨"id", "data"⟩)
      PullState.init).received = 2147483647 ∧
    (callback IntSize.bits32 ⟨"id", "data"⟩
      (deliver IntSize.bits32 (List.replicate (2 ^ 31 - 1) ⟨"id", "data"⟩)
        PullState.init)).received = -2147483648 ∧
    (deliver IntSize.bits32 (List.replicate (2 ^ 31) ⟨"id", "data"⟩)
      PullState.init).received = -2147483648 ∧
    ((List.replicate (2 ^ 31) (⟨"id", "data"⟩ : Message)).length : Int) = 2147483648 := by
  have h1 : (deliver IntSize.bits32 (List.replicate (2 ^ 31 - 1) ⟨"id", "data"⟩)
      PullState.init).received = 2147483647 := by
    rw [deliver_received_init, List.length_replicate]
    decide
  refine ⟨h1, ?_, ?_, ?_⟩
  · rw [callback_eq]
    show wrapInt IntSize.bits32 (_ + 1) = _
    rw [h1]
    decide
  · rw [deliver_received_init, List.length_replicate]
    decide
  · rw [List.length_replicate]
    decide

/-- C2, amended: the counter starts at 0 and only the callback changes it;
every completed invocation entered with the counter below the greatest int,
2 ^ (bits - 1) - 1, adds exactly 1 to it (entered at the greatest int it
wraps around to the least); hence over fewer than 2 ^ (bits - 1) completed
deliveries it never decreases and equals their number: k after k deliveries,
and, whatever the receive loop does, the number of completed invocations
when pullMsgs returns (N if N deliveries completed before it failed). -/
theorem received_counts_completed_deliveries (size : IntSize) :
    PullState.init.received = 0 ∧
    (∀ (m : Message) (s : PullState), -2 ^ (size.bits - 1) ≤ s.received →
      s.received < 2 ^ (size.bits - 1) - 1 →
      (callback size m s).received = s.received + 1) ∧
    (∀ (m : Message) (s : PullState), s.received = 2 ^ (size.bits - 1) - 1 →
      (callback size m s).received = -2 ^ (size.bits - 1)) ∧
    (∀ (pre post : List Message), ((pre ++ post).length : Int) < 2 ^ (size.bits - 1) →
      (deliver size pre PullState.init).received ≤
        (deliver size (pre ++ post) PullState.init).received) ∧
    (∀ (msgs : List Message), (msgs.length : Int) < 2 ^ (size.bits - 1) →
      (deliver size msgs PullState.init).received = msgs.length) ∧
    (∀ (receive : String → Receive) (subName : String),
      (pullMsgs size receive subName).state.received =
        wrapInt size (pullMsgs size receive subName).state.completed ∧
      (((pullMsgs size receive subName).state.completed : Int) < 2 ^ (size.bits - 1) →
        (pullMsgs size receive subName).state.received =
          (pullMsgs size receive subName).state.completed)) ∧
    (∀ (receive : String → Receive) (subName : String) (msgs : List Message) (e : GoError),
      receive subName = Receive.script msgs (some e) →
        (pullMsgs size receive subName).err = some e ∧
        ((msgs.length : Int) < 2 ^ (size.bits - 1) →
          (pullMsgs size receive subName).state.received = msgs.length)) := by
  refine ⟨rfl, ?_, ?_, ?_, ?_, ?_, ?_⟩
  · intro m s hlo hhi
    rw [callback_eq]
    exact wrapInt_succ size s.received hlo hhi
  · intro m s hs
    rw [callback_eq]
    show wrapInt size (s.received + 1) = _
    rw [hs]
    exact wrapInt_succ_max size
  · intro pre post hlen
    have hpre : ((pre.length : Nat) : Int) < 2 ^ (size.bits - 1) := by
      have : ((pre.length : Nat) : Int) ≤ ((pre ++ post).length : Int) := by
        rw [List.length_append]
        exact_mod_cast Nat.le_add_right _ _
      omega
    rw [deliver_received_init, deliver_received_init, wrapInt_of_lt size _ hpre,
      wrapInt_of_lt size _ hlen, List.length_append]
    exact_mod_cast Nat.le_add_right _ _
  · intro msgs hlen
    rw [deliver_received_init, wrapInt_of_lt size _ hlen]
  · intro receive subName
    have h : (pullMsgs size receive subName).state.received =
        wrapInt size (pullMsgs size receive subName).state.completed := by
      rw [pullMsgs_state]
      apply Receive.run_received
      have h0 : (PullState.init.emit (Event.receive subName)).received = 0 := rfl
      have h1 : (PullState.init.emit (Event.receive subName)).completed = 0 := by
        simp [PullState.completed, PullState.init]
      rw [h0, h1, Nat.cast_zero, wrapInt_zero]
    exact ⟨h, fun hlt => by rw [h, wrapInt_of_lt size _ hlt]⟩
  · intro receive subName msgs e h
    refine ⟨by rw [pullMsgs_script size receive subName msgs (some e) h], fun hlen => ?_⟩
    rw [pullMsgs_script_received size receive subName msgs (some e) h,
      wrapInt_of_lt size _ hlen]

/-- C2, amended, on a 64-bit int: the invocation entered at 41 leaves the
counter at 42, and 12 deliveries leave it at 12. -/
theorem received_counts_completed_deliveries_witness :
    (callback IntSize.bits64 ⟨"id", "data"⟩ { received := 41, trace := [] }).received = 41 + 1 ∧
    (deliver IntSize.bits64 (sampleMsgs 12) PullState.init).received =
      ((sampleMsgs 12).length : Nat) :=
  ⟨(received_counts_completed_deliveries IntSize.bits64).2.1 ⟨"id", "data"⟩
      { received := 41, trace := [] } (by decide) (by decide),
   (received_counts_completed_deliveries IntSize.bits64).2.2.2.2.1 (sampleMsgs 12)
      (by simp [sampleMsgs, IntSize.bits])⟩

/-! ## Order of the effects of the callback -/

/-- Within one invocation, at every point the increments done are covered
by acknowledgments done. -/
theorem callbackTrace_take (size : IntSize) (msg : Message) (r : Int) (j : Nat) :
    ((callbackTrace size msg r).take j).count Event.incr ≤
      ((callbackTrace size msg r).take j).countP Event.isAck := by
  rw [callbackTrace_eq]
  by_cases h : wrapInt size (r + 1) = 10
  · rcases j with _ | _ | _ | _ | _ | _ | _ | j <;> simp [h, Event.isAck]
  · rcases j with _ | _ | _ | _ | _ | _ | j <;> simp [h, Event.isAck]

theorem callbackTrace_count_incr (size : IntSize) (msg : Message) (r : Int) :
    (callbackTrace size msg r).count Event.incr = 1 := by
  rw [callbackTrace_eq]
  by_cases h : wrapInt size (r + 1) = 10 <;> simp [h]

theorem callbackTrace_countP_ack (size : IntSize) (msg : Message) (r : Int) :
    (callbackTrace size msg r).countP Event.isAck = 1 := by
  rw [callbackTrace_eq]
  by_cases h : wrapInt size (r + 1) = 10 <;> simp [h, Event.isAck]

/-- At every point of a run of deliveries, the increments done so far are
covered by acknowledgments done so far, and the counter moves with the
increments. -/
theorem deliver_take (size : IntSize) (msgs : List Message) (s : PullState)
    (hs : ∀ k, (s.trace.take k).count Event.incr ≤ (s.trace.take k).countP Event.isAck)
    (hc : s.trace.count Event.incr = s.trace.countP Event.isAck)
    (hr : s.received = wrapInt size s.incrs) :
    (∀ k, ((deliver size msgs s).trace.take k).count Event.incr ≤
      ((deliver size msgs s).trace.take k).countP Event.isAck) ∧
    (deliver size msgs s).trace.count Event.incr =
      (deliver size msgs s).trace.countP Event.isAck ∧
    (deliver size msgs s).received = wrapInt size (deliver size msgs s).incrs := by
  induction msgs generalizing s with
  | nil => exact ⟨hs, hc, hr⟩
  | cons m rest ih =>
    rw [deliver_cons]
    apply ih
    · intro k
      rw [callback_eq]
      simp only [List.take_append_eq_append_take, List.count_append, List.countP_append]
      have h1 := hs k
      have h2 := callbackTrace_take size m s.received (k - s.trace.length)
      omega
    · rw [callback_eq]
      simp only [List.count_append, List.countP_append, callbackTrace_count_incr,
        callbackTrace_countP_ack]
      omega
    · rw [callback_eq]
      simp only [PullState.incrs, List.count_append, callbackTrace_count_incr]
      rw [hr, wrapInt_add_wrap]
      simp only [PullState.incrs]
      push_cast
      rfl

/-- C6 as stated fails: in the invocation for delivery ("id", "data") the
"Got message" line is not printed before the acknowledgment. -/
theorem handler_before_ack_counterexample :
    ¬ precedes (Event.printf "Got message: %q\n" "data") (Event.ack ⟨"id", "data"⟩)
        (callbackTrace IntSize.bits64 ⟨"id", "data"⟩ 0) ∧
    callbackTrace IntSize.bits64 ⟨"id", "data"⟩ 0 =
      [Event.ack ⟨"id", "data"⟩, Event.printf "Got message: %q\n" "data", Event.lock,
       Event.incr, Event.unlock] := by
  decide

/-- C6, amended: for every delivery the callback first acknowledges the
delivery, then prints the "Got message" line with the payload, then takes
the lock and increments the counter, and releases the lock last. -/
theorem ack_then_print_then_increment (size : IntSize) (m : Message) (r : Int) :
    precedes (Event.ack m) (Event.printf "Got message: %q\n" m.Data) (callbackTrace size m r) ∧
    precedes (Event.printf "Got message: %q\n" m.Data) Event.lock (callbackTrace size m r) ∧
    precedes Event.lock Event.incr (callbackTrace size m r) ∧
    precedes Event.incr Event.unlock (callbackTrace size m r) ∧
    (callbackTrace size m r).take 4 =
      [Event.ack m, Event.printf "Got message: %q\n" m.Data, Event.lock, Event.incr] ∧
    (callbackTrace size m r).getLast? = some Event.unlock := by
  rw [callbackTrace_eq]
  by_cases h : wrapInt size (r + 1) = 10 <;> simp [h, precedes, List.indexOf_cons]

/-! ## `pullMsgs` and `publish` -/

theorem callbackTrace_countP_receive (size : IntSize) (msg : Message) (r : Int) :
    (callbackTrace size msg r).countP Event.isReceive = 0 := by
  rw [callbackTrace_eq]
  by_cases h : wrapInt size (r + 1) = 10 <;> simp [h, Event.isReceive]

/-- The callback never calls `Receive`: the library's run only appends
effects, none of them a `Receive` call. -/
theorem Receive.run_trace (size : IntSize) (rb : Receive) (s : PullState) :
    ∃ t, (rb.run (callback size) s).1.trace = s.trace ++ t ∧ t.countP Event.isReceive = 0 := by
  induction rb generalizing s with
  | ret err => exact ⟨[], by simp [Receive.run], rfl⟩
  | call msg next ih =>
    simp only [Receive.run]
    obtain ⟨t, ht, hc⟩ := ih (decide (0 < (callback size msg s).cancels)) (callback size msg s)
    refine ⟨callbackTrace size msg s.received ++ t, ?_, ?_⟩
    · rw [ht, callback_eq]
      simp
    · simp [List.countP_append, callbackTrace_countP_receive, hc]

/-- C4: pullMsgs returns exactly what the receive call returned: an error if
and only if Receive returned one, and then that error; nil when Receive
returned normally. It calls Receive once, whatever happens. When N < 10
deliveries are followed by a transport failure e it returns e, with the
counter at N and cancel() never called. -/
theorem pullMsgs_surfaces_receive_error (size : IntSize) (receive : String → Receive)
    (subName : String) :
    (pullMsgs size receive subName).err =
      ((receive subName).run (callback size)
        (PullState.init.emit (Event.receive subName))).2 ∧
    ((pullMsgs size receive subName).err ≠ none ↔
      ((receive subName).run (callback size)
        (PullState.init.emit (Event.receive subName))).2 ≠ none) ∧
    (∃ t, (pullMsgs size receive subName).state.trace = Event.receive subName :: t ∧
      t.countP Event.isReceive = 0) ∧
    (∀ (msgs : List Message) (e : GoError), msgs.length < 10 →
      receive subName = Receive.script msgs (some e) →
        (pullMsgs size receive subName).err = some e ∧
        (pullMsgs size receive subName).state.received = msgs.length ∧
        (pullMsgs size receive subName).state.cancels = 0) := by
  have herr := pullMsgs_err size receive subName
  refine ⟨herr, by rw [herr], ?_, ?_⟩
  · rw [pullMsgs_state]
    obtain ⟨t, ht, hc⟩ :=
      Receive.run_trace size (receive subName) (PullState.init.emit (Event.receive subName))
    exact ⟨t, by rw [ht]; rfl, hc⟩
  · intro msgs e hlen h
    have h0 : (PullState.init.emit (Event.receive subName)).received =
        wrapInt size ((0 : Nat) : Int) := by
      rw [Nat.cast_zero, wrapInt_zero]; rfl
    have hsmall : ((msgs.length : Nat) : Int) < 2 ^ (size.bits - 1) := by
      have : ((msgs.length : Nat) : Int) < 10 := by exact_mod_cast hlen
      cases size <;> simp only [IntSize.bits] <;> norm_num <;> omega
    have hbig : (((0 + msgs.length : Nat)) : Int) < 2 ^ size.bits + 10 := by
      have : ((msgs.length : Nat) : Int) < 10 := by exact_mod_cast hlen
      rw [Nat.zero_add]
      cases size <;> simp only [IntSize.bits] <;> norm_num <;> omega
    refine ⟨by rw [pullMsgs_script size receive subName msgs (some e) h], ?_, ?_⟩
    · rw [pullMsgs_script_received size receive subName msgs (some e) h,
        wrapInt_of_lt size _ hsmall]
    · rw [pullMsgs_script size receive subName msgs (some e) h]
      show (deliver size msgs _).cancels = _
      rw [deliver_cancels size msgs _ 0 h0 hbig]
      have h1 : (PullState.init.emit (Event.receive subName)).cancels = 0 := by
        simp [PullState.cancels, PullState.init]
      rw [h1]
      split_ifs <;> omega

/-- C4 at three deliveries followed by the failure "connection lost". -/
theorem pullMsgs_surfaces_receive_error_witness :
    (pullMsgs IntSize.bits64 (fun _ => Receive.script (sampleMsgs 3) (some (GoError.other "connection lost")))
        "my-sub").err = some (GoError.other "connection lost") ∧
    (pullMsgs IntSize.bits64 (fun _ => Receive.script (sampleMsgs 3) (some (GoError.other "connection lost")))
        "my-sub").state.received = 3 ∧
    (pullMsgs IntSize.bits64 (fun _ => Receive.script (sampleMsgs 3) (some (GoError.other "connection lost")))
        "my-sub").state.cancels = 0 :=
  (pullMsgs_surfaces_receive_error IntSize.bits64
    (fun _ => Receive.script (sampleMsgs 3) (some (GoError.other "connection lost")))
    "my-sub").2.2.2 (sampleMsgs 3) (GoError.other "connection lost") (by decide) rfl

/-- C7 as stated fails: publish hands no MessageID to its caller. With the
broker confirming "id-1" and with it confirming "id-2" the caller gets the
same value, nil, so nothing computed from it is the identifier. -/
theorem publish_returns_id_counterexample :
    (publish (confirms "id-1") "my-topic" "hello world!").err = none ∧
    (publish (confirms "id-2") "my-topic" "hello world!").err = none ∧
    ¬ ∃ f : Option GoError → String,
        f (publish (confirms "id-1") "my-topic" "hello world!").err = "id-1" ∧
        f (publish (confirms "id-2") "my-topic" "hello world!").err = "id-2" := by
  refine ⟨rfl, rfl, ?_⟩
  rintro ⟨f, h1, h2⟩
  have e1 : (publish (confirms "id-1") "my-topic" "hello world!").err = none := rfl
  have e2 : (publish (confirms "id-2") "my-topic" "hello world!").err = none := rfl
  rw [e1] at h1
  rw [e2, h1] at h2
  exact absurd h2 (by decide)

/-- C7, amended: publish makes one Publish call with the payload and one
wait on its confirmation, nothing more. If the broker confirms with
identifier id, publish returns nil and shows id only in the line "Published
a message; msg ID: id"; it returns no MessageID. If the confirmation fails
with e, publish returns e and prints no line. -/
theorem publish_single_attempt (get : String → String → String × Option GoError)
    (topicId msg : String) :
    (publish get topicId msg).trace.take 2 = [Event.publish topicId msg, Event.get] ∧
    (publish get topicId msg).trace.countP Event.isPublish = 1 ∧
    (publish get topicId msg).trace.count Event.get = 1 ∧
    (publish get topicId msg).err = (get topicId msg).2 ∧
    (∀ id, get topicId msg = (id, none) →
      publish get topicId msg =
        { err := none,
          trace := [Event.publish topicId msg, Event.get,
                    Event.printf "Published a message; msg ID: %v\n" id] }) ∧
    (∀ id e, get topicId msg = (id, some e) →
      publish get topicId msg =
        { err := some e, trace := [Event.publish topicId msg, Event.get] }) := by
  unfold publish
  rcases hg : get topicId msg with ⟨id, _ | e⟩ <;> simp [Event.isPublish]

/-- C7, amended, on a broker that confirms "id-1" and on one whose
confirmation fails with "deadline exceeded". -/
theorem publish_single_attempt_witness :
    publish (confirms "id-1") "my-topic" "hello world!" =
      { err := none,
        trace := [Event.publish "my-topic" "hello world!", Event.get,
                  Event.printf "Published a message; msg ID: %v\n" "id-1"] } ∧
    publish (rejects (GoError.other "deadline exceeded")) "my-topic" "hello world!" =
      { err := some (GoError.other "deadline exceeded"),
        trace := [Event.publish "my-topic" "hello world!", Event.get] } :=
  ⟨(publish_single_attempt (confirms "id-1") "my-topic" "hello world!").2.2.2.2.1 "id-1" rfl,
   (publish_single_attempt (rejects (GoError.other "deadline exceeded")) "my-topic"
      "hello world!").2.2.2.2.2 "" (GoError.other "deadline exceeded") rfl⟩

/-! ## The listing loop -/

/-- The loop on an iterator that yields `xs` and then the error `e`: with
fuel for `xs.length + 1` iterations it leaves with all of `xs` after what it
had (`e` is `Done`), or with the error and a nil slice. -/
theorem drain_yields {α : Type} (it : Iter α) (xs : List α) (y : α) (e : GoError)
    (fuel : Nat) (st : it.σ) (acc : List α) (trace : List Event)
    (hfuel : xs.length < fuel)
    (h : it.results (xs.length + 1) st = xs.map (fun x => (x, none)) ++ [(y, some e)]) :
    drain it fuel st acc trace =
      some (if e = GoError.iteratorDone then
              { items := acc ++ xs, err := none,
                trace := trace ++ List.replicate (xs.length + 1) Event.next }
            else
              { items := [], err := some e,
                trace := trace ++ List.replicate (xs.length + 1) Event.next }) := by
  induction xs generalizing fuel st acc trace with
  | nil =>
    obtain ⟨fuel, rfl⟩ : ∃ f, fuel = f + 1 := ⟨fuel - 1, by simp at hfuel; omega⟩
    simp only [List.length_nil, Nat.zero_add, Iter.results, List.map_nil, List.nil_append,
      List.cons.injEq, and_true] at h
    unfold drain
    simp only [h]
    by_cases he : e = GoError.iteratorDone
    · simp [he]
    · simp [he]
  | cons x rest ih =>
    obtain ⟨fuel, rfl⟩ : ∃ f, fuel = f + 1 := ⟨fuel - 1, by simp at hfuel; omega⟩
    simp only [List.length_cons, Iter.results, List.map_cons, List.cons_append,
      List.cons.injEq] at h
    obtain ⟨h1, h2⟩ := h
    have hrest := ih fuel (it.next st).2 (acc ++ [x]) (trace ++ [Event.next])
      (by simp at hfuel; omega) h2
    unfold drain
    simp only [h1]
    simp only [reduceCtorEq, if_false]
    rw [hrest]
    simp [List.replicate_succ, List.append_assoc]

/-- C8: list and listSubscription are all-or-nothing. If Next yields items
xs and then Done, the function returns xs, in order, and a nil error; if
Next yields xs and then another error e, it returns e with a nil slice.
Either way Next is called once per item and once more, and not again. -/
theorem listers_all_or_nothing (client : Client) (topicID : String) (fuel : Nat) :
    (∀ (xs : List Topic) (y : Topic) (e : GoError), xs.length < fuel →
      client.topics.results (xs.length + 1) client.topics.start =
        xs.map (fun x => (x, none)) ++ [(y, some e)] →
      (e = GoError.iteratorDone →
        list client fuel =
          some { items := xs, err := none,
                 trace := Event.listTopics :: List.replicate (xs.length + 1) Event.next }) ∧
      (e ≠ GoError.iteratorDone →
        list client fuel =
          some { items := [], err := some e,
                 trace := Event.listTopics :: List.replicate (xs.length + 1) Event.next })) ∧
    (∀ (xs : List Subscription) (y : Subscription) (e : GoError), xs.length < fuel →
      (client.subscriptions topicID).results (xs.length + 1) (client.subscriptions topicID).start =
        xs.map (fun x => (x, none)) ++ [(y, some e)] →
      (e = GoError.iteratorDone →
        listSubscription client topicID fuel =
          some { items := xs, err := none,
                 trace := Event.listSubscriptions topicID ::
                   List.replicate (xs.length + 1) Event.next }) ∧
      (e ≠ GoError.iteratorDone →
        listSubscription client topicID fuel =
          some { items := [], err := some e,
                 trace := Event.listSubscriptions topicID ::
                   List.replicate (xs.length + 1) Event.next })) := by
  constructor
  · intro xs y e hfuel h
    have key := drain_yields client.topics xs y e fuel client.topics.start [] [Event.listTopics]
      hfuel h
    constructor
    · intro he
      unfold list
      rw [key]
      simp [he]
    · intro he
      unfold list
      rw [key]
      simp [he]
  · intro xs y e hfuel h
    have key := drain_yields (client.subscriptions topicID) xs y e fuel
      (client.subscriptions topicID).start [] [Event.listSubscriptions topicID] hfuel h
    constructor
    · intro he
      unfold listSubscription
      rw [key]
      simp [he]
    · intro he
      unfold listSubscription
      rw [key]
      simp [he]

/-- C8 at two topics followed by the error "unavailable": the error and a
nil slice, after three calls of Next; and at two subscriptions followed by
Done: both subscriptions. -/
theorem listers_all_or_nothing_witness :
    list flakyClient 5 =
      some { items := [], err := some (GoError.other "unavailable"),
             trace := [Event.listTopics, Event.next, Event.next, Event.next] } ∧
    listSubscription flakyClient "my-topic" 5 =
      some { items := [⟨"s1"⟩, ⟨"s2"⟩], err := none,
             trace := [Event.listSubscriptions "my-topic", Event.next, Event.next, Event.next] } :=
  ⟨((listers_all_or_nothing flakyClient "my-topic" 5).1 [⟨"t1"⟩, ⟨"t2"⟩] ⟨""⟩
      (GoError.other "unavailable") (by decide) rfl).2 (by decide),
   ((listers_all_or_nothing flakyClient "my-topic" 5).2 [⟨"s1"⟩, ⟨"s2"⟩] ⟨""⟩
      GoError.iteratorDone (by decide) rfl).1 rfl⟩

/-- C9: when the subscription iterator of a topic signals Done on its first
Next call, listSubscription returns an empty sequence and a nil error. -/
theorem listSubscription_no_subscriptions (client : Client) (topicID : String) (fuel : Nat)
    (hfuel : 0 < fuel)
    (hdone : ((client.subscriptions topicID).next (client.subscriptions topicID).start).1.2 =
      some GoError.iteratorDone) :
    ∃ r, listSubscription client topicID fuel = some r ∧
      r.items = [] ∧ r.items.length = 0 ∧ r.err = none ∧
      r.trace = [Event.listSubscriptions topicID, Event.next] := by
  obtain ⟨fuel, rfl⟩ : ∃ f, fuel = f + 1 := ⟨fuel - 1, by omega⟩
  refine ⟨{ items := [], err := none, trace := [Event.listSubscriptions topicID, Event.next] },
    ?_, rfl, rfl, rfl, rfl⟩
  unfold listSubscription drain
  simp [hdone]

/-- C9 on a client whose topic "my-topic" has no subscription. -/
theorem listSubscription_no_subscriptions_witness :
    ∃ r, listSubscription (sampleClient [] [] ("", none) (Receive.ret none)) "my-topic" 1 = some r ∧
      r.items = [] ∧ r.items.length = 0 ∧ r.err = none ∧
      r.trace = [Event.listSubscriptions "my-topic", Event.next] :=
  listSubscription_no_subscriptions (sampleClient [] [] ("", none) (Receive.ret none))
    "my-topic" 1 (by decide) rfl

/-! ## `main` -/

/-- The listing loop only adds calls of `Next` to the trace. -/
theorem drain_trace {α : Type} (it : Iter α) (fuel : Nat) (st : it.σ) (acc : List α)
    (trace : List Event) (r : ListResult α) (h : drain it fuel st acc trace = some r) :
    ∃ k, r.trace = trace ++ List.replicate k Event.next := by
  induction fuel generalizing st acc trace with
  | zero => simp [drain] at h
  | succ fuel ih =>
    unfold drain at h
    simp only at h
    split_ifs at h with hd
    · simp only [Option.some.injEq] at h
      exact ⟨1, by rw [← h]; rfl⟩
    · split at h
      · simp only [Option.some.injEq] at h
        exact ⟨1, by rw [← h]; rfl⟩
      · obtain ⟨k, hk⟩ := ih _ _ _ h
        exact ⟨k + 1, by rw [hk, List.replicate_succ]; simp⟩

@[simp] theorem steps_append (a b : List Event) : steps (a ++ b) = steps a ++ steps b := by
  simp [steps]

@[simp] theorem diagnostics_append (a b : List Event) :
    diagnostics (a ++ b) = diagnostics a ++ diagnostics b := by
  simp [diagnostics]

@[simp] theorem steps_replicate_next (k : Nat) : steps (List.replicate k Event.next) = [] := by
  simp [steps, List.filter_eq_nil_iff, Event.isStep]

@[simp] theorem diagnostics_replicate_next (k : Nat) :
    diagnostics (List.replicate k Event.next) = [] := by
  simp [diagnostics, List.filter_eq_nil_iff, Event.isDiagnostic]

@[simp] theorem steps_map_println {α : Type} (f : α → String) (l : List α) :
    steps (l.map (fun x => Event.println (f x))) = [] := by
  simp [steps, List.filter_eq_nil_iff, Event.isStep]

@[simp] theorem diagnostics_map_println {α : Type} (f : α → String) (l : List α) :
    diagnostics (l.map (fun x => Event.println (f x))) = [] := by
  simp [diagnostics, List.filter_eq_nil_iff, Event.isDiagnostic]

theorem callbackTrace_steps (size : IntSize) (msg : Message) (r : Int) :
    steps (callbackTrace size msg r) = [] ∧ diagnostics (callbackTrace size msg r) = [] := by
  rw [callbackTrace_eq]
  by_cases h : wrapInt size (r + 1) = 10 <;> simp [h, steps, diagnostics, Event.isStep, Event.isDiagnostic]

/-- The library's run of the callback starts no step of `main` and writes no
diagnostic. -/
theorem Receive.run_steps (size : IntSize) (rb : Receive) (s : PullState) :
    steps (rb.run (callback size) s).1.trace = steps s.trace ∧
    diagnostics (rb.run (callback size) s).1.trace = diagnostics s.trace := by
  induction rb generalizing s with
  | ret err => exact ⟨rfl, rfl⟩
  | call msg next ih =>
    simp only [Receive.run]
    rw [(ih _ _).1, (ih _ _).2, callback_eq]
    simp [callbackTrace_steps]

theorem pullMsgs_steps (size : IntSize) (receive : String → Receive) (subName : String) :
    steps (pullMsgs size receive subName).state.trace = [Event.receive subName] ∧
    diagnostics (pullMsgs size receive subName).state.trace = [] := by
  rw [pullMsgs_state, (Receive.run_steps _ _ _).1, (Receive.run_steps _ _ _).2]
  exact ⟨rfl, rfl⟩

theorem publish_steps (get : String → String → String × Option GoError) (topicId msg : String) :
    steps (publish get topicId msg).trace = [Event.publish topicId msg] ∧
    diagnostics (publish get topicId msg).trace = [] := by
  unfold publish
  rcases hg : (get topicId msg).2 with _ | e <;>
    simp [hg, steps, diagnostics, Event.isStep, Event.isDiagnostic]

theorem list_steps (client : Client) (fuel : Nat) (r : ListResult Topic)
    (h : list client fuel = some r) :
    steps r.trace = [Event.listTopics] ∧ diagnostics r.trace = [] := by
  obtain ⟨k, hk⟩ := drain_trace _ _ _ _ _ _ h
  rw [hk]
  simp [steps, diagnostics, Event.isStep, Event.isDiagnostic, List.filter_eq_nil_iff]

theorem listSubscription_steps (client : Client) (topicID : String) (fuel : Nat)
    (r : ListResult Subscription) (h : listSubscription client topicID fuel = some r) :
    steps r.trace = [Event.listSubscriptions topicID] ∧ diagnostics r.trace = [] := by
  obtain ⟨k, hk⟩ := drain_trace _ _ _ _ _ _ h
  rw [hk]
  simp [steps, diagnostics, Event.isStep, Event.isDiagnostic, List.filter_eq_nil_iff]

/-- C10: main runs project check, client creation, list topics, list
subscriptions of "my-topic", publish "hello world!" to "my-topic", consume
from "my-sub", in that order. The first of them that fails ends the process
with status 1 right after its diagnostic, the later steps not started; with
the project identifier empty nothing but the message on stderr happens. -/
theorem main_stops_at_first_failure (w : World) (fuel : Nat) :
    (w.proj = "" →
      main w fuel = some
        { status := 1,
          trace := [Event.stderr "GOOGLE_CLOUD_PROJECT environment variable must be set.\n"] }) ∧
    (∀ e, w.proj ≠ "" → (w.newClient w.proj).2 = some e →
      main w fuel = some
        { status := 1,
          trace := [Event.newClient w.proj,
                    Event.fatalf "Could not create pubsub Client: %v" e] }) ∧
    (∀ ts e, w.proj ≠ "" → (w.newClient w.proj).2 = none →
      list w.client fuel = some ts → ts.err = some e →
      main w fuel = some
        { status := 1,
          trace := [Event.newClient w.proj, Event.println "Listing all topics from the project:"]
            ++ ts.trace ++ [Event.fatalf "Failed to list topics: %v" e] }) ∧
    (∀ ts ss e, w.proj ≠ "" → (w.newClient w.proj).2 = none →
      list w.client fuel = some ts → ts.err = none →
      listSubscription w.client "my-topic" fuel = some ss → ss.err = some e →
      main w fuel = some
        { status := 1,
          trace := [Event.newClient w.proj, Event.println "Listing all topics from the project:"]
            ++ ts.trace ++ ts.items.map (fun t => Event.println t.name)
            ++ [Event.println "Listing all subscriptions from the project:"]
            ++ ss.trace ++ [Event.fatalf "Failed to listSubscriptions: %v" e] }) ∧
    (∀ ts ss e, w.proj ≠ "" → (w.newClient w.proj).2 = none →
      list w.client fuel = some ts → ts.err = none →
      listSubscription w.client "my-topic" fuel = some ss → ss.err = none →
      (publish w.client.get "my-topic" "hello world!").err = some e →
      main w fuel = some
        { status := 1,
          trace := [Event.newClient w.proj, Event.println "Listing all topics from the project:"]
            ++ ts.trace ++ ts.items.map (fun t => Event.println t.name)
            ++ [Event.println "Listing all subscriptions from the project:"]
            ++ ss.trace ++ ss.items.map (fun s => Event.println s.name)
            ++ [Event.println "PUBLISH:"]
            ++ (publish w.client.get "my-topic" "hello world!").trace
            ++ [Event.fatalf "Failed to publish: %v" e] }) ∧
    (∀ ts ss e, w.proj ≠ "" → (w.newClient w.proj).2 = none →
      list w.client fuel = some ts → ts.err = none →
      listSubscription w.client "my-topic" fuel = some ss → ss.err = none →
      (publish w.client.get "my-topic" "hello world!").err = none →
      (pullMsgs w.intSize w.client.receive "my-sub").err = some e →
      main w fuel = some
        { status := 1,
          trace := [Event.newClient w.proj, Event.println "Listing all topics from the project:"]
            ++ ts.trace ++ ts.items.map (fun t => Event.println t.name)
            ++ [Event.println "Listing all subscriptions from the project:"]
            ++ ss.trace ++ ss.items.map (fun s => Event.println s.name)
            ++ [Event.println "PUBLISH:"]
            ++ (publish w.client.get "my-topic" "hello world!").trace
            ++ (pullMsgs w.intSize w.client.receive "my-sub").state.trace
            ++ [Event.fatal e] }) ∧
    (∀ ts ss, w.proj ≠ "" → (w.newClient w.proj).2 = none →
      list w.client fuel = some ts → ts.err = none →
      listSubscription w.client "my-topic" fuel = some ss → ss.err = none →
      (publish w.client.get "my-topic" "hello world!").err = none →
      (pullMsgs w.intSize w.client.receive "my-sub").err = none →
      main w fuel = some
        { status := 0,
          trace := [Event.newClient w.proj, Event.println "Listing all topics from the project:"]
            ++ ts.trace ++ ts.items.map (fun t => Event.println t.name)
            ++ [Event.println "Listing all subscriptions from the project:"]
            ++ ss.trace ++ ss.items.map (fun s => Event.println s.name)
            ++ [Event.println "PUBLISH:"]
            ++ (publish w.client.get "my-topic" "hello world!").trace
            ++ (pullMsgs w.intSize w.client.receive "my-sub").state.trace }) ∧
    (∀ p, main w fuel = some p →
      steps p.trace <+: plan w.proj ∧
      (p.status = 0 → steps p.trace = plan w.proj ∧ diagnostics p.trace = []) ∧
      (p.status ≠ 0 → p.status = 1 ∧
        ∃ d, diagnostics p.trace = [d] ∧ p.trace.getLast? = some d)) := by
  have h1 : w.proj = "" →
      main w fuel = some
        { status := 1,
          trace := [Event.stderr "GOOGLE_CLOUD_PROJECT environment variable must be set.\n"] } := by
    intro hp
    simp only [World.proj] at hp
    simp [main, hp]
  refine ⟨h1, ?_⟩
  have h2 : ∀ e, w.proj ≠ "" → (w.newClient w.proj).2 = some e →
      main w fuel = some
        { status := 1,
          trace := [Event.newClient w.proj,
                    Event.fatalf "Could not create pubsub Client: %v" e] } := by
    intro e hp hc
    simp only [World.proj] at hp hc
    simp [main, hp, hc, World.proj]
  refine ⟨h2, ?_⟩
  have h3 : ∀ ts e, w.proj ≠ "" → (w.newClient w.proj).2 = none →
      list w.client fuel = some ts → ts.err = some e →
      main w fuel = some
        { status := 1,
          trace := [Event.newClient w.proj, Event.println "Listing all topics from the project:"]
            ++ ts.trace ++ [Event.fatalf "Failed to list topics: %v" e] } := by
    intro ts e hp hc hl hle
    simp only [World.proj, World.client] at hp hc hl
    simp [main, hp, hc, hl, hle, World.proj]
  refine ⟨h3, ?_⟩
  have h4 : ∀ ts ss e, w.proj ≠ "" → (w.newClient w.proj).2 = none →
      list w.client fuel = some ts → ts.err = none →
      listSubscription w.client "my-topic" fuel = some ss → ss.err = some e →
      main w fuel = some
        { status := 1,
          trace := [Event.newClient w.proj, Event.println "Listing all topics from the project:"]
            ++ ts.trace ++ ts.items.map (fun t => Event.println t.name)
            ++ [Event.println "Listing all subscriptions from the project:"]
            ++ ss.trace ++ [Event.fatalf "Failed to listSubscriptions: %v" e] } := by
    intro ts ss e hp hc hl hle hs hse
    simp only [World.proj, World.client] at hp hc hl hs
    simp [main, hp, hc, hl, hle, hs, hse, World.proj]
  refine ⟨h4, ?_⟩
  have h5 : ∀ ts ss e, w.proj ≠ "" → (w.newClient w.proj).2 = none →
      list w.client fuel = some ts → ts.err = none →
      listSubscription w.client "my-topic" fuel = some ss → ss.err = none →
      (publish w.client.get "my-topic" "hello world!").err = some e →
      main w fuel = some
        { status := 1,
          trace := [Event.newClient w.proj, Event.println "Listing all topics from the project:"]
            ++ ts.trace ++ ts.items.map (fun t => Event.println t.name)
            ++ [Event.println "Listing all subscriptions from the project:"]
            ++ ss.trace ++ ss.items.map (fun s => Event.println s.name)
            ++ [Event.println "PUBLISH:"]
            ++ (publish w.client.get "my-topic" "hello world!").trace
            ++ [Event.fatalf "Failed to publish: %v" e] } := by
    intro ts ss e hp hc hl hle hs hse hpub
    simp only [World.proj, World.client] at hp hc hl hs hpub
    simp [main, hp, hc, hl, hle, hs, hse, hpub, World.proj, World.client]
  refine ⟨h5, ?_⟩
  have h6 : ∀ ts ss e, w.proj ≠ "" → (w.newClient w.proj).2 = none →
      list w.client fuel = some ts → ts.err = none →
      listSubscription w.client "my-topic" fuel = some ss → ss.err = none →
      (publish w.client.get "my-topic" "hello world!").err = none →
      (pullMsgs w.intSize w.client.receive "my-sub").err = some e →
      main w fuel = some
        { status := 1,
          trace := [Event.newClient w.proj, Event.println "Listing all topics from the project:"]
            ++ ts.trace ++ ts.items.map (fun t => Event.println t.name)
            ++ [Event.println "Listing all subscriptions from the project:"]
            ++ ss.trace ++ ss.items.map (fun s => Event.println s.name)
            ++ [Event.println "PUBLISH:"]
            ++ (publish w.client.get "my-topic" "hello world!").trace
            ++ (pullMsgs w.intSize w.client.receive "my-sub").state.trace
            ++ [Event.fatal e] } := by
    intro ts ss e hp hc hl hle hs hse hpub hpull
    simp only [World.proj, World.client] at hp hc hl hs hpub hpull
    simp [main, hp, hc, hl, hle, hs, hse, hpub, hpull, World.proj, World.client]
  refine ⟨h6, ?_⟩
  have h7 : ∀ ts ss, w.proj ≠ "" → (w.newClient w.proj).2 = none →
      list w.client fuel = some ts → ts.err = none →
      listSubscription w.client "my-topic" fuel = some ss → ss.err = none →
      (publish w.client.get "my-topic" "hello world!").err = none →
      (pullMsgs w.intSize w.client.receive "my-sub").err = none →
      main w fuel = some
        { status := 0,
          trace := [Event.newClient w.proj, Event.println "Listing all topics from the project:"]
            ++ ts.trace ++ ts.items.map (fun t => Event.println t.name)
            ++ [Event.println "Listing all subscriptions from the project:"]
            ++ ss.trace ++ ss.items.map (fun s => Event.println s.name)
            ++ [Event.println "PUBLISH:"]
            ++ (publish w.client.get "my-topic" "hello world!").trace
            ++ (pullMsgs w.intSize w.client.receive "my-sub").state.trace } := by
    intro ts ss hp hc hl hle hs hse hpub hpull
    simp only [World.proj, World.client] at hp hc hl hs hpub hpull
    simp [main, hp, hc, hl, hle, hs, hse, hpub, hpull, World.proj, World.client]
  refine ⟨h7, ?_⟩
  intro p hmain
  have hnc : steps [Event.newClient w.proj, Event.println "Listing all topics from the project:"]
      = [Event.newClient w.proj] := rfl
  have hncd : diagnostics
      [Event.newClient w.proj, Event.println "Listing all topics from the project:"] = [] := rfl
  by_cases hp : w.proj = ""
  · rw [h1 hp, Option.some.injEq] at hmain
    subst hmain
    refine ⟨List.nil_prefix, ?_, ?_⟩
    · intro h; simp at h
    · intro _; exact ⟨rfl, _, rfl, rfl⟩
  have hp0 : ¬ w.getenv "GOOGLE_CLOUD_PROJECT" = "" := hp
  cases hc : (w.newClient w.proj).2 with
  | some ec =>
    rw [h2 ec hp hc, Option.some.injEq] at hmain
    subst hmain
    refine ⟨⟨_, rfl⟩, ?_, ?_⟩
    · intro h; simp at h
    · intro _; exact ⟨rfl, _, rfl, rfl⟩
  | none =>
    have hc0 := hc
    simp only [World.proj] at hc0
    cases hl : list w.client fuel with
    | none =>
      have hl0 := hl
      simp only [World.proj, World.client] at hl0
      simp [main, hp0, hc0, hl0] at hmain
    | some ts =>
      have hts := list_steps _ _ _ hl
      cases hle : ts.err with
      | some e =>
        rw [h3 ts e hp hc hl hle, Option.some.injEq] at hmain
        subst hmain
        refine ⟨?_, ?_, ?_⟩
        · simp only [steps_append, hnc, hts.1]
          exact ⟨_, rfl⟩
        · intro h; simp at h
        · intro _
          refine ⟨rfl, Event.fatalf "Failed to list topics: %v" e, ?_, ?_⟩
          · simp only [diagnostics_append, hncd, hts.2]
            rfl
          · exact List.getLast?_concat _
      | none =>
        cases hs : listSubscription w.client "my-topic" fuel with
        | none =>
          have hl0 := hl
          have hs0 := hs
          simp only [World.proj, World.client] at hl0 hs0
          simp [main, hp0, hc0, hl0, hle, hs0] at hmain
        | some ss =>
          have hss := listSubscription_steps _ _ _ _ hs
          have hsub : steps [Event.println "Listing all subscriptions from the project:"] = [] :=
            rfl
          have hsubd :
              diagnostics [Event.println "Listing all subscriptions from the project:"] = [] := rfl
          cases hse : ss.err with
          | some e =>
            rw [h4 ts ss e hp hc hl hle hs hse, Option.some.injEq] at hmain
            subst hmain
            refine ⟨?_, ?_, ?_⟩
            · simp only [steps_append, hnc, hts.1, hss.1, hsub, steps_map_println]
              exact ⟨_, rfl⟩
            · intro h; simp at h
            · intro _
              refine ⟨rfl, Event.fatalf "Failed to listSubscriptions: %v" e, ?_, ?_⟩
              · simp only [diagnostics_append, hncd, hts.2, hss.2, hsubd,
                  diagnostics_map_println]
                rfl
              · exact List.getLast?_concat _
          | none =>
            have hpb := publish_steps w.client.get "my-topic" "hello world!"
            have hpl := pullMsgs_steps w.intSize w.client.receive "my-sub"
            have hP : steps [Event.println "PUBLISH:"] = [] := rfl
            have hPd : diagnostics [Event.println "PUBLISH:"] = [] := rfl
            cases hpub : (publish w.client.get "my-topic" "hello world!").err with
            | some e =>
              rw [h5 ts ss e hp hc hl hle hs hse hpub, Option.some.injEq] at hmain
              subst hmain
              refine ⟨?_, ?_, ?_⟩
              · simp only [steps_append, hnc, hts.1, hss.1, hsub, steps_map_println, hP, hpb.1]
                exact ⟨_, rfl⟩
              · intro h; simp at h
              · intro _
                refine ⟨rfl, Event.fatalf "Failed to publish: %v" e, ?_, ?_⟩
                · simp only [diagnostics_append, hncd, hts.2, hss.2, hsubd,
                    diagnostics_map_println, hPd, hpb.2]
                  rfl
                · exact List.getLast?_concat _
            | none =>
              cases hpull : (pullMsgs w.intSize w.client.receive "my-sub").err with
              | some e =>
                rw [h6 ts ss e hp hc hl hle hs hse hpub hpull, Option.some.injEq] at hmain
                subst hmain
                refine ⟨?_, ?_, ?_⟩
                · simp only [steps_append, hnc, hts.1, hss.1, hsub, steps_map_println, hP,
                    hpb.1, hpl.1]
                  exact ⟨_, rfl⟩
                · intro h; simp at h
                · intro _
                  refine ⟨rfl, Event.fatal e, ?_, ?_⟩
                  · simp only [diagnostics_append, hncd, hts.2, hss.2, hsubd,
                      diagnostics_map_println, hPd, hpb.2, hpl.2]
                    rfl
                  · exact List.getLast?_concat _
              | none =>
                rw [h7 ts ss hp hc hl hle hs hse hpub hpull, Option.some.injEq] at hmain
                subst hmain
                refine ⟨?_, ?_, ?_⟩
                · simp only [steps_append, hnc, hts.1, hss.1, hsub, steps_map_println, hP,
                    hpb.1, hpl.1]
                  exact ⟨_, rfl⟩
                · intro _
                  constructor
                  · simp only [steps_append, hnc, hts.1, hss.1, hsub, steps_map_println, hP,
                      hpb.1, hpl.1]
                    rfl
                  · simp only [diagnostics_append, hncd, hts.2, hss.2, hsubd,
                      diagnostics_map_println, hPd, hpb.2, hpl.2]
                    rfl
                · intro h; simp at h

/-- C10 on three process environments: the project identifier unset (only
the message on stderr, status 1); listing topics fails (status 1 after the
diagnostic, no subscription listing, publish or receive); every step
succeeds (the five steps in order, status 0). -/
theorem main_stops_at_first_failure_witness :
    main unsetWorld 5 = some
      { status := 1,
        trace := [Event.stderr "GOOGLE_CLOUD_PROJECT environment variable must be set.\n"] } ∧
    main flakyWorld 5 = some
      { status := 1,
        trace := [Event.newClient "demo", Event.println "Listing all topics from the project:",
                  Event.listTopics, Event.next, Event.next, Event.next,
                  Event.fatalf "Failed to list topics: %v" (GoError.other "unavailable")] } ∧
    (∃ p, main healthyWorld 5 = some p ∧ p.status = 0 ∧ steps p.trace = plan "demo" ∧
      diagnostics p.trace = []) :=
  ⟨(main_stops_at_first_failure unsetWorld 5).1 rfl,
   (main_stops_at_first_failure flakyWorld 5).2.2.1
     { items := [], err := some (GoError.other "unavailable"),
       trace := [Event.listTopics, Event.next, Event.next, Event.next] }
     (GoError.other "unavailable") (by decide) rfl rfl rfl,
   (main healthyWorld 5).get (by decide), by simp,
   by decide,
   ((main_stops_at_first_failure healthyWorld 5).2.2.2.2.2.2.2
      ((main healthyWorld 5).get (by decide)) (by simp)).2.1 (by decide)⟩

/-! ## The callback under concurrent deliveries -/

@[simp] theorem total_nil (f : Pc → Nat) : total f [] = 0 := rfl

@[simp] theorem total_cons (f : Pc → Nat) (w : Worker) (ws : List Worker) :
    total f (w :: ws) = f w.pc + total f ws := by
  simp [total]

theorem total_replicate (f : Pc → Nat) (n : Nat) (w : Worker) :
    total f (List.replicate n w) = n * f w.pc := by
  induction n with
  | zero => simp
  | succ n ih => rw [List.replicate_succ, total_cons, ih]; ring

theorem le_total (f : Pc → Nat) (ws : List Worker) (w : Worker) (h : w ∈ ws) :
    f w.pc ≤ total f ws := by
  induction ws with
  | nil => simp at h
  | cons x xs ih =>
    rw [total_cons]
    rcases List.mem_cons.mp h with rfl | h'
    · omega
    · have := ih h'
      omega

theorem total_mono (f g : Pc → Nat) (hfg : ∀ pc, f pc ≤ g pc) (ws : List Worker) :
    total f ws ≤ total g ws := by
  induction ws with
  | nil => simp
  | cons x xs ih =>
    rw [total_cons, total_cons]
    have := hfg x.pc
    omega

theorem exists_of_total_pos (f : Pc → Nat) (ws : List Worker) (h : 0 < total f ws) :
    ∃ w ∈ ws, 0 < f w.pc := by
  induction ws with
  | nil => simp at h
  | cons x xs ih =>
    rw [total_cons] at h
    by_cases hx : 0 < f x.pc
    · exact ⟨x, List.mem_cons_self _ _, hx⟩
    · obtain ⟨w, hw, hf⟩ := ih (by omega)
      exact ⟨w, List.mem_cons_of_mem _ hw, hf⟩

/-- Splitting the workers into worker `i` and the others. -/
theorem workers_split (ws : List Worker) (i : Nat) (w : Worker) (h : ws[i]? = some w) :
    ∃ rest : List Worker,
      (∀ f, total f ws = f w.pc + total f rest) ∧
      (∀ f a, total f (ws.set i a) = f a.pc + total f rest) ∧
      (∀ a w', w' ∈ ws.set i a → w' = a ∨ w' ∈ rest) ∧
      (∀ w', w' ∈ rest → w' ∈ ws) ∧
      w ∈ ws := by
  induction ws generalizing i with
  | nil => simp at h
  | cons x xs ih =>
    cases i with
    | zero =>
      simp only [List.getElem?_cons_zero, Option.some.injEq] at h
      subst h
      refine ⟨xs, fun f => by simp, fun f a => by simp, ?_, ?_, List.mem_cons_self _ _⟩
      · intro a w' hw'
        simpa using hw'
      · intro w' hw'
        exact List.mem_cons_of_mem _ hw'
    | succ i =>
      simp only [List.getElem?_cons_succ] at h
      obtain ⟨rest, h1, h2, h3, h4, h5⟩ := ih i h
      refine ⟨x :: rest, ?_, ?_, ?_, ?_, List.mem_cons_of_mem _ h5⟩
      · intro f
        rw [total_cons, total_cons, h1 f]
        omega
      · intro f a
        rw [List.set_cons_succ, total_cons, total_cons, h2 f a]
        omega
      · intro a w' hw'
        rw [List.set_cons_succ] at hw'
        rcases List.mem_cons.mp hw' with rfl | hw''
        · exact Or.inr (List.mem_cons_self _ _)
        · rcases h3 a w' hw'' with rfl | hr
          · exact Or.inl rfl
          · exact Or.inr (List.mem_cons_of_mem _ hr)
      · intro w' hw'
        rcases List.mem_cons.mp hw' with rfl | hw''
        · exact List.mem_cons_self _ _
        · exact List.mem_cons_of_mem _ (h4 w' hw'')

theorem pending_le_holding (pc : Pc) : Pc.pending pc ≤ Pc.holding pc := by
  cases pc <;> decide

theorem counted_le_length (ws : List Worker) : total Pc.counted ws ≤ ws.length := by
  induction ws with
  | nil => simp
  | cons w ws ih =>
    rw [total_cons, List.length_cons]
    have : Pc.counted w.pc ≤ 1 := by cases w.pc <;> decide
    omega

/-- Every statement of every worker keeps the invariant. -/
theorem Conc.Inv.step {size : IntSize} {s s' : Conc} {i : Nat} (hinv : s.Inv size)
    (h : s.step size i = some s') : s'.Inv size := by
  unfold Conc.step at h
  cases hw : s.workers[i]? with
  | none => simp [hw] at h
  | some w =>
    simp only [hw] at h
    obtain ⟨rest, h1, h2, h3, h4, h5⟩ := workers_split s.workers i w hw
    have hR := hinv.received
    have hM := hinv.mutex
    have hA := hinv.acks
    have hc := h1 Pc.counted
    have hh := h1 Pc.holding
    have hp := h1 Pc.pending
    have ha := h1 Pc.acked
    have hph : total Pc.pending rest ≤ total Pc.holding rest :=
      total_mono _ _ pending_le_holding rest
    have hM1 : total Pc.holding s.workers ≤ 1 := by
      rw [hM]; split_ifs <;> omega
    have hcle := counted_le_length s.workers
    have hC : ∀ a : Worker, ((s.workers.set i a).length : Int) < 2 ^ size.bits + 10 →
        (s.cancels =
          if 10 < total Pc.counted s.workers ∨
            (total Pc.counted s.workers = 10 ∧ total Pc.pending s.workers = 0) then 1 else 0) ∧
        (s.received = 10 ↔ total Pc.counted s.workers = 10) := by
      intro a hb
      rw [List.length_set] at hb
      refine ⟨hinv.cancels hb, ?_⟩
      rw [hR]
      apply wrapInt_eq_ten_iff
      have : ((total Pc.counted s.workers : Nat) : Int) ≤ (s.workers.length : Int) := by
        exact_mod_cast hcle
      omega
    rw [hc] at hR
    rw [hh] at hM hM1
    rw [ha] at hA
    rw [hc, hp] at hC
    cases hpc : w.pc with
    | ack =>
      simp only [hpc, Option.some.injEq] at h
      subst h
      rw [hpc] at hR hM hM1 hA hC
      refine ⟨?_, ?_, ?_, ?_, ?_, ?_⟩
      · simp only [Conc.goto, h2]
        simp only [Pc.counted] at hR ⊢
        exact hR
      · simp only [Conc.goto, h2]
        simp only [Pc.holding] at hM hM1 ⊢
        split_ifs at hM ⊢ <;> omega
      · intro w' hw' hpc'
        simp only [Conc.goto] at hw'
        rcases h3 _ _ hw' with rfl | hr
        · simp at hpc'
        · exact hinv.tmp w' (h4 w' hr) hpc'
      · intro w' hw' hpc'
        simp only [Conc.goto] at hw'
        rcases h3 _ _ hw' with rfl | hr
        · simp at hpc'
        · exact hinv.ten w' (h4 w' hr) hpc'
      · intro hb
        simp only [Conc.goto] at hb
        obtain ⟨hC1, hC2⟩ := hC _ hb
        simp only [Conc.goto, h2]
        simp only [Pc.counted, Pc.pending, Pc.holding] at hC1 hC2 hM1 ⊢
        split_ifs at hC1 ⊢ <;> omega
      · simp only [Conc.goto, h2]
        simp only [Pc.acked] at hA ⊢
        omega
    | print =>
      simp only [hpc, Option.some.injEq] at h
      subst h
      rw [hpc] at hR hM hM1 hA hC
      refine ⟨?_, ?_, ?_, ?_, ?_, ?_⟩
      · simp only [Conc.goto, h2]
        simp only [Pc.counted] at hR ⊢
        exact hR
      · simp only [Conc.goto, h2]
        simp only [Pc.holding] at hM hM1 ⊢
        split_ifs at hM ⊢ <;> omega
      · intro w' hw' hpc'
        simp only [Conc.goto] at hw'
        rcases h3 _ _ hw' with rfl | hr
        · simp at hpc'
        · exact hinv.tmp w' (h4 w' hr) hpc'
      · intro w' hw' hpc'
        simp only [Conc.goto] at hw'
        rcases h3 _ _ hw' with rfl | hr
        · simp at hpc'
        · exact hinv.ten w' (h4 w' hr) hpc'
      · intro hb
        simp only [Conc.goto] at hb
        obtain ⟨hC1, hC2⟩ := hC _ hb
        simp only [Conc.goto, h2]
        simp only [Pc.counted, Pc.pending, Pc.holding] at hC1 hC2 hM1 ⊢
        split_ifs at hC1 ⊢ <;> omega
      · simp only [Conc.goto, h2]
        simp only [Pc.acked] at hA ⊢
        omega
    | lock =>
      simp only [hpc] at h
      by_cases hl : s.locked = true
      · simp [hl] at h
      simp only [hl, if_false, Option.some.injEq] at h
      simp only [Bool.false_eq_true, if_false, Option.some.injEq] at h
      subst h
      rw [hpc] at hR hM hM1 hA hC
      rw [if_neg hl] at hM
      refine ⟨?_, ?_, ?_, ?_, ?_, ?_⟩
      · simp only [Conc.goto, h2]
        simp only [Pc.counted] at hR ⊢
        exact hR
      · simp only [Conc.goto, h2, if_true]
        simp only [Pc.holding] at hM hM1 ⊢
        omega
      · intro w' hw' hpc'
        simp only [Conc.goto] at hw'
        rcases h3 _ _ hw' with rfl | hr
        · simp at hpc'
        · exact hinv.tmp w' (h4 w' hr) hpc'
      · intro w' hw' hpc'
        simp only [Conc.goto] at hw'
        rcases h3 _ _ hw' with rfl | hr
        · simp at hpc'
        · exact hinv.ten w' (h4 w' hr) hpc'
      · intro hb
        simp only [Conc.goto] at hb
        obtain ⟨hC1, hC2⟩ := hC _ hb
        simp only [Conc.goto, h2]
        simp only [Pc.counted, Pc.pending, Pc.holding] at hC1 hC2 hM1 ⊢
        split_ifs at hC1 ⊢ <;> omega
      · simp only [Conc.goto, h2]
        simp only [Pc.acked] at hA ⊢
        omega
    | load =>
      simp only [hpc, Option.some.injEq] at h
      subst h
      rw [hpc] at hR hM hM1 hA hC
      refine ⟨?_, ?_, ?_, ?_, ?_, ?_⟩
      · simp only [Conc.goto, h2]
        simp only [Pc.counted] at hR ⊢
        exact hR
      · simp only [Conc.goto, h2]
        simp only [Pc.holding] at hM hM1 ⊢
        split_ifs at hM ⊢ <;> omega
      · intro w' hw' hpc'
        simp only [Conc.goto] at hw'
        rcases h3 _ _ hw' with rfl | hr
        · rfl
        · exact hinv.tmp w' (h4 w' hr) hpc'
      · intro w' hw' hpc'
        simp only [Conc.goto] at hw'
        rcases h3 _ _ hw' with rfl | hr
        · simp at hpc'
        · exact hinv.ten w' (h4 w' hr) hpc'
      · intro hb
        simp only [Conc.goto] at hb
        obtain ⟨hC1, hC2⟩ := hC _ hb
        simp only [Conc.goto, h2]
        simp only [Pc.counted, Pc.pending, Pc.holding] at hC1 hC2 hM1 ⊢
        split_ifs at hC1 ⊢ <;> omega
      · simp only [Conc.goto, h2]
        simp only [Pc.acked] at hA ⊢
        omega
    | store =>
      simp only [hpc, Option.some.injEq] at h
      subst h
      rw [hpc] at hR hM hM1 hA hC
      have htmp := hinv.tmp w h5 hpc
      have hrest0 : total Pc.holding rest = 0 := by
        simp only [Pc.holding] at hM1
        omega
      refine ⟨?_, ?_, ?_, ?_, ?_, ?_⟩
      · simp only [Conc.goto, h2]
        simp only [Pc.counted] at hR ⊢
        rw [htmp, hR, wrapInt_add_wrap]
        congr 1
        push_cast
        ring
      · simp only [Conc.goto, h2]
        simp only [Pc.holding] at hM hM1 ⊢
        split_ifs at hM ⊢ <;> omega
      · intro w' hw' hpc'
        simp only [Conc.goto] at hw'
        rcases h3 _ _ hw' with rfl | hr
        · simp at hpc'
        · have := le_total Pc.holding rest w' hr
          rw [hpc'] at this
          simp only [Pc.holding] at this
          omega
      · intro w' hw' hpc'
        simp only [Conc.goto] at hw'
        rcases h3 _ _ hw' with rfl | hr
        · simp at hpc'
        · have := le_total Pc.holding rest w' hr
          rw [hpc'] at this
          simp only [Pc.holding] at this
          omega
      · intro hb
        simp only [Conc.goto] at hb
        obtain ⟨hC1, hC2⟩ := hC _ hb
        simp only [Conc.goto, h2]
        simp only [Pc.counted, Pc.pending, Pc.holding] at hC1 hC2 hM1 ⊢
        split_ifs at hC1 ⊢ <;> omega
      · simp only [Conc.goto, h2]
        simp only [Pc.acked] at hA ⊢
        omega
    | test =>
      simp only [hpc, Option.some.injEq] at h
      subst h
      rw [hpc] at hR hM hM1 hA hC
      have hrest0 : total Pc.holding rest = 0 := by
        simp only [Pc.holding] at hM1
        omega
      refine ⟨?_, ?_, ?_, ?_, ?_, ?_⟩
      · by_cases h10 : s.received = 10
        · rw [if_pos h10]
          simp only [Conc.goto, h2]
          simp only [Pc.counted] at hR ⊢
          exact hR
        · rw [if_neg h10]
          simp only [Conc.goto, h2]
          simp only [Pc.counted] at hR ⊢
          exact hR
      · by_cases h10 : s.received = 10
        · rw [if_pos h10]
          simp only [Conc.goto, h2]
          simp only [Pc.holding] at hM hM1 ⊢
          split_ifs at hM ⊢ <;> omega
        · rw [if_neg h10]
          simp only [Conc.goto, h2]
          simp only [Pc.holding] at hM hM1 ⊢
          split_ifs at hM ⊢ <;> omega
      · intro w' hw' hpc'
        simp only [Conc.goto] at hw'
        rcases h3 _ _ hw' with rfl | hr
        · by_cases h10 : s.received = 10 <;> simp [h10] at hpc'
        · exact hinv.tmp w' (h4 w' hr) hpc'
      · intro w' hw' hpc'
        simp only [Conc.goto] at hw'
        rcases h3 _ _ hw' with rfl | hr
        · by_cases h10 : s.received = 10
          · exact h10
          · simp [h10] at hpc'
        · exact hinv.ten w' (h4 w' hr) hpc'
      · intro hb
        simp only [Conc.goto] at hb
        obtain ⟨hC1, hC2⟩ := hC _ hb
        by_cases h10 : s.received = 10
        · rw [if_pos h10]
          have hc10 := hC2.mp h10
          simp only [Conc.goto, h2]
          simp only [Pc.counted, Pc.pending, Pc.holding] at hC1 hc10 hM1 ⊢
          split_ifs at hC1 ⊢ <;> omega
        · rw [if_neg h10]
          have hc10 : ¬ _ := fun hx => h10 (hC2.mpr hx)
          simp only [Conc.goto, h2]
          simp only [Pc.counted, Pc.pending, Pc.holding] at hC1 hc10 hM1 ⊢
          split_ifs at hC1 ⊢ <;> omega
      · by_cases h10 : s.received = 10
        · rw [if_pos h10]
          simp only [Conc.goto, h2]
          simp only [Pc.acked] at hA ⊢
          omega
        · rw [if_neg h10]
          simp only [Conc.goto, h2]
          simp only [Pc.acked] at hA ⊢
          omega
    | cancel =>
      simp only [hpc, Option.some.injEq] at h
      subst h
      rw [hpc] at hR hM hM1 hA hC
      have hten := hinv.ten w h5 hpc
      have hrest0 : total Pc.holding rest = 0 := by
        simp only [Pc.holding] at hM1
        omega
      refine ⟨?_, ?_, ?_, ?_, ?_, ?_⟩
      · simp only [Conc.goto, h2]
        simp only [Pc.counted] at hR ⊢
        exact hR
      · simp only [Conc.goto, h2]
        simp only [Pc.holding] at hM hM1 ⊢
        split_ifs at hM ⊢ <;> omega
      · intro w' hw' hpc'
        simp only [Conc.goto] at hw'
        rcases h3 _ _ hw' with rfl | hr
        · simp at hpc'
        · exact hinv.tmp w' (h4 w' hr) hpc'
      · intro w' hw' hpc'
        simp only [Conc.goto] at hw'
        rcases h3 _ _ hw' with rfl | hr
        · simp at hpc'
        · exact hinv.ten w' (h4 w' hr) hpc'
      · intro hb
        simp only [Conc.goto] at hb
        obtain ⟨hC1, hC2⟩ := hC _ hb
        have hc10 := hC2.mp hten
        simp only [Conc.goto, h2]
        simp only [Pc.counted, Pc.pending, Pc.holding] at hC1 hc10 hM1 ⊢
        split_ifs at hC1 ⊢ <;> omega
      · simp only [Conc.goto, h2]
        simp only [Pc.acked] at hA ⊢
        omega
    | unlock =>
      simp only [hpc, Option.some.injEq] at h
      subst h
      rw [hpc] at hR hM hM1 hA hC
      have hrest0 : total Pc.holding rest = 0 := by
        simp only [Pc.holding] at hM1
        omega
      refine ⟨?_, ?_, ?_, ?_, ?_, ?_⟩
      · simp only [Conc.goto, h2]
        simp only [Pc.counted] at hR ⊢
        exact hR
      · simp only [Conc.goto, h2]
        simp [Pc.holding, hrest0]
      · intro w' hw' hpc'
        simp only [Conc.goto] at hw'
        rcases h3 _ _ hw' with rfl | hr
        · simp at hpc'
        · exact hinv.tmp w' (h4 w' hr) hpc'
      · intro w' hw' hpc'
        simp only [Conc.goto] at hw'
        rcases h3 _ _ hw' with rfl | hr
        · simp at hpc'
        · exact hinv.ten w' (h4 w' hr) hpc'
      · intro hb
        simp only [Conc.goto] at hb
        obtain ⟨hC1, hC2⟩ := hC _ hb
        simp only [Conc.goto, h2]
        simp only [Pc.counted, Pc.pending, Pc.holding] at hC1 hC2 hM1 ⊢
        split_ifs at hC1 ⊢ <;> omega
      · simp only [Conc.goto, h2]
        simp only [Pc.acked] at hA ⊢
        omega
    | done => simp [hpc] at h

theorem Conc.Inv.init (size : IntSize) (n : Nat) : (Conc.init n).Inv size := by
  refine ⟨?_, ?_, ?_, ?_, ?_, ?_⟩
  · simp [Conc.init, total_replicate, Pc.counted, wrapInt_zero]
  · simp [Conc.init, total_replicate, Pc.holding]
  · intro w hw hpc
    rw [List.eq_of_mem_replicate hw] at hpc
    simp at hpc
  · intro w hw hpc
    rw [List.eq_of_mem_replicate hw] at hpc
    simp at hpc
  · intro _
    simp [Conc.init, total_replicate, Pc.counted]
  · simp [Conc.init, total_replicate, Pc.acked]

@[simp] theorem Conc.exec_nil (size : IntSize) (s : Conc) : Conc.exec size [] s = some s := rfl

theorem Conc.exec_cons (size : IntSize) (i : Nat) (rest : List Nat) (s : Conc) :
    Conc.exec size (i :: rest) s = (s.step size i).bind (Conc.exec size rest) := rfl

theorem Conc.exec_append (size : IntSize) (a b : List Nat) (s : Conc) :
    Conc.exec size (a ++ b) s = (Conc.exec size a s).bind (Conc.exec size b) := by
  induction a generalizing s with
  | nil => simp
  | cons i rest ih =>
    rw [List.cons_append, Conc.exec_cons, Conc.exec_cons]
    cases hs : s.step size i with
    | none => simp
    | some s' => simp [ih]

/-- The invariant holds after every interleaving. -/
theorem Conc.Inv.exec {size : IntSize} {s s' : Conc} (sched : List Nat) (hinv : s.Inv size)
    (h : Conc.exec size sched s = some s') : s'.Inv size := by
  induction sched generalizing s with
  | nil =>
    simp only [Conc.exec_nil, Option.some.injEq] at h
    rw [← h]; exact hinv
  | cons i rest ih =>
    rw [Conc.exec_cons] at h
    cases hs : s.step size i with
    | none => simp [hs] at h
    | some s1 =>
      rw [hs] at h
      exact ih (hinv.step hs) h

/-- A statement that runs replaces one worker by one that is closer to its
return; no worker is added or dropped. -/
theorem Conc.step_workers {size : IntSize} {s s' : Conc} {i : Nat}
    (h : s.step size i = some s') :
    ∃ w a, s.workers[i]? = some w ∧ s'.workers = s.workers.set i a ∧
      Pc.rank a.pc < Pc.rank w.pc := by
  unfold Conc.step at h
  cases hw : s.workers[i]? with
  | none => simp [hw] at h
  | some w =>
    simp only [hw] at h
    cases hpc : w.pc with
    | lock =>
      simp only [hpc] at h
      by_cases hl : s.locked = true
      · simp [hl] at h
      · rw [if_neg hl, Option.some.injEq] at h
        subst h
        exact ⟨w, _, rfl, rfl, by rw [hpc]; simp [Pc.rank]⟩
    | test =>
      simp only [hpc, Option.some.injEq] at h
      subst h
      refine ⟨w, _, rfl, rfl, ?_⟩
      rw [hpc]
      by_cases h10 : s.received = 10 <;> simp [h10, Pc.rank]
    | done => simp [hpc] at h
    | ack | print | load | store | cancel | unlock =>
      simp only [hpc, Option.some.injEq] at h
      subst h
      exact ⟨w, _, rfl, rfl, by rw [hpc]; simp [Pc.rank]⟩

theorem Conc.step_length {size : IntSize} {s s' : Conc} {i : Nat}
    (h : s.step size i = some s') : s'.workers.length = s.workers.length := by
  obtain ⟨w, a, _, h2, _⟩ := Conc.step_workers h
  rw [h2, List.length_set]

theorem Conc.step_rank {size : IntSize} {s s' : Conc} {i : Nat}
    (h : s.step size i = some s') : total Pc.rank s'.workers < total Pc.rank s.workers := by
  obtain ⟨w, a, hw, h2, hlt⟩ := Conc.step_workers h
  obtain ⟨rest, h1, h2', _⟩ := workers_split s.workers i w hw
  rw [h2, h2' Pc.rank a, h1 Pc.rank]
  omega

theorem Conc.exec_length {size : IntSize} {s s' : Conc} (sched : List Nat)
    (h : Conc.exec size sched s = some s') : s'.workers.length = s.workers.length := by
  induction sched generalizing s with
  | nil =>
    simp only [Conc.exec_nil, Option.some.injEq] at h
    rw [← h]
  | cons i rest ih =>
    rw [Conc.exec_cons] at h
    cases hs : s.step size i with
    | none => simp [hs] at h
    | some s1 =>
      rw [hs] at h
      rw [ih h, Conc.step_length hs]

/-- Unless every worker has returned, some worker can run. -/
theorem Conc.progress (size : IntSize) (s : Conc) (hinv : s.Inv size) (hnd : ¬ s.allDone) :
    ∃ i s', s.step size i = some s' := by
  have hM := hinv.mutex
  by_cases hl : s.locked = true
  · rw [if_pos hl] at hM
    obtain ⟨w, hw, hpos⟩ := exists_of_total_pos Pc.holding s.workers (by omega)
    obtain ⟨i, hi⟩ := List.getElem?_of_mem hw
    refine ⟨i, ?_⟩
    unfold Conc.step
    rw [hi]
    cases hpc : w.pc <;> simp [hpc, Pc.holding] at hpos ⊢
  · rw [if_neg hl] at hM
    unfold Conc.allDone at hnd
    push_neg at hnd
    obtain ⟨w, hw, hpc'⟩ := hnd
    have hle := le_total Pc.holding s.workers w hw
    obtain ⟨i, hi⟩ := List.getElem?_of_mem hw
    refine ⟨i, ?_⟩
    unfold Conc.step
    rw [hi]
    cases hpc : w.pc <;> simp [hpc, Pc.holding, hl] at hle hpc' ⊢

/-- From every state that satisfies the invariant the workers can all be
run to their return. -/
theorem Conc.completes (size : IntSize) (s : Conc) (hinv : s.Inv size) :
    ∃ sched s', Conc.exec size sched s = some s' ∧ s'.allDone := by
  have key : ∀ r (s : Conc), s.Inv size → total Pc.rank s.workers = r →
      ∃ sched s', Conc.exec size sched s = some s' ∧ s'.allDone := by
    intro r
    induction r using Nat.strong_induction_on with
    | _ r ih =>
      intro s hinv hr
      by_cases hd : s.allDone
      · exact ⟨[], s, rfl, hd⟩
      · obtain ⟨i, s1, hs⟩ := Conc.progress size s hinv hd
        have hlt := Conc.step_rank hs
        obtain ⟨sched, s', he, hd'⟩ := ih _ (by rw [← hr]; exact hlt) s1 (hinv.step hs) rfl
        exact ⟨i :: sched, s', by rw [Conc.exec_cons, hs]; exact he, hd'⟩
  exact key _ s hinv rfl

theorem critical_eq_total (ws : List Worker) :
    ws.countP (fun w => w.pc.inCritical) = total Pc.holding ws := by
  induction ws with
  | nil => rfl
  | cons w ws ih =>
    rw [List.countP_cons, total_cons, ih]
    cases hpc : w.pc <;> simp [Pc.inCritical, Pc.holding] <;> omega

theorem total_of_allDone (f : Pc → Nat) (ws : List Worker) (h : ∀ w ∈ ws, w.pc = Pc.done) :
    total f ws = ws.length * f Pc.done := by
  induction ws with
  | nil => simp
  | cons w ws ih =>
    rw [total_cons, ih (fun w' hw' => h w' (List.mem_cons_of_mem _ hw')),
      h w (List.mem_cons_self _ _), List.length_cons]
    ring

/-- Once all of `n` concurrent invocations have returned, the counter shows
`n` as a Go `int`, every delivery has been acknowledged, and, for `n` below
`2 ^ bits + 10`, `cancel()` has been called once if `n` is at least 10 and
never otherwise. -/
theorem Conc.final (size : IntSize) (n : Nat) (sched : List Nat) (s : Conc)
    (h : Conc.exec size sched (Conc.init n) = some s) (hd : s.allDone) :
    s.received = wrapInt size n ∧ s.acks = n ∧
    ((n : Int) < 2 ^ size.bits + 10 → s.cancels = (if 10 ≤ n then 1 else 0)) := by
  have hinv : s.Inv size := (Conc.Inv.init size n).exec sched h
  have hlen : s.workers.length = n := by
    rw [Conc.exec_length sched h]
    simp [Conc.init]
  have hR := hinv.received
  have hC := hinv.cancels
  have hA := hinv.acks
  rw [total_of_allDone Pc.counted s.workers hd, hlen] at hR hC
  rw [total_of_allDone Pc.pending s.workers hd, hlen] at hC
  rw [total_of_allDone Pc.acked s.workers hd, hlen] at hA
  simp only [Pc.counted, Pc.pending, Pc.acked, Nat.mul_one, Nat.mul_zero] at hR hC hA
  refine ⟨hR, hA, fun hn => ?_⟩
  have hCn := hC hn
  simp only [and_true] at hCn
  split_ifs at hCn ⊢ <;> omega

/-- In every state the concurrent invocations reach, the counter is at most
the number of acknowledgments made. -/
theorem Conc.received_le_acks (size : IntSize) (s : Conc) (hinv : s.Inv size) :
    s.received ≤ s.acks := by
  have h := total_mono Pc.counted Pc.acked (fun pc => by cases pc <;> decide) s.workers
  have hle := wrapInt_le size (total Pc.counted s.workers)
  rw [hinv.received, hinv.acks]
  have : ((total Pc.counted s.workers : Nat) : Int) ≤ (total Pc.acked s.workers : Nat) := by
    exact_mod_cast h
  omega

/-- C3 as stated fails on the Go `int`: on a platform with 32-bit `int`,
2 ^ 31 concurrent deliveries can all be run to their return, and whatever
the interleaving the final counter is then -2 ^ 31, not 2 ^ 31. -/
theorem concurrent_callbacks_count_and_cancel_once_counterexample :
    (∃ sched s, Conc.exec IntSize.bits32 sched (Conc.init (2 ^ 31)) = some s ∧ s.allDone) ∧
    (∀ sched s, Conc.exec IntSize.bits32 sched (Conc.init (2 ^ 31)) = some s → s.allDone →
      s.received = -2147483648 ∧ s.received ≠ ((2 ^ 31 : Nat) : Int)) := by
  refine ⟨Conc.completes IntSize.bits32 _ (Conc.Inv.init IntSize.bits32 _), ?_⟩
  intro sched s h hd
  have hr := (Conc.final IntSize.bits32 (2 ^ 31) sched s h hd).1
  have hw : wrapInt IntSize.bits32 ((2 ^ 31 : Nat) : Int) = -2147483648 := by decide
  rw [hw] at hr
  refine ⟨hr, ?_⟩
  rw [hr]
  decide

/-- C3, amended: under every interleaving of n concurrent invocations of the
callback, with received++ a separate read and write, at most one invocation
is between mu.Lock() and the deferred mu.Unlock() (exactly when the mutex is
held) and no increment is lost: the counter is the number of writes done, as
a Go int. Once all have returned every delivery has been acknowledged, the
counter is n as a Go int, which is n itself for n below 2 ^ (bits - 1), and
for n below 2 ^ bits + 10 cancel() has been called once if n >= 10 and never
otherwise; every interleaving can be run on until all have returned. -/
theorem concurrent_callbacks_count_and_cancel_once (size : IntSize) (n : Nat)
    (sched : List Nat) (s : Conc) (h : Conc.exec size sched (Conc.init n) = some s) :
    s.critical ≤ 1 ∧ (s.critical = 1 ↔ s.locked = true) ∧
    s.received = wrapInt size (total Pc.counted s.workers) ∧
    (s.allDone →
      s.acks = n ∧ s.received = wrapInt size n ∧
      ((n : Int) < 2 ^ (size.bits - 1) → s.received = n) ∧
      ((n : Int) < 2 ^ size.bits + 10 → s.cancels = (if 10 ≤ n then 1 else 0))) ∧
    (∃ sched' s', Conc.exec size (sched ++ sched') (Conc.init n) = some s' ∧ s'.allDone) := by
  have hinv : s.Inv size := (Conc.Inv.init size n).exec sched h
  have hM := hinv.mutex
  have hcrit : s.critical = total Pc.holding s.workers := critical_eq_total s.workers
  refine ⟨?_, ?_, hinv.received, ?_, ?_⟩
  · rw [hcrit, hM]
    split_ifs <;> omega
  · rw [hcrit, hM]
    by_cases hl : s.locked = true <;> simp [hl]
  · intro hd
    obtain ⟨hR, hA, hC⟩ := Conc.final size n sched s h hd
    exact ⟨hA, hR, fun hn => by rw [hR, wrapInt_of_lt size n hn], hC⟩
  · obtain ⟨sched', s', he, hd⟩ := Conc.completes size s hinv
    exact ⟨sched', s', by rw [Conc.exec_append, h]; exact he, hd⟩

/-- C3, amended, on an interleaving of 11 deliveries on a 64-bit int: all
return, the counter is 11 and cancel() was called once. -/
theorem concurrent_callbacks_count_and_cancel_once_witness :
    Conc.exec IntSize.bits64 sampleSchedule (Conc.init 11) = some sampleFinal ∧
    sampleFinal.allDone ∧ sampleFinal.acks = 11 ∧
    sampleFinal.received = ((11 : Nat) : Int) ∧
    sampleFinal.cancels = (if 10 ≤ 11 then 1 else 0) := by
  have h := concurrent_callbacks_count_and_cancel_once IntSize.bits64 11 sampleSchedule
    sampleFinal (by decide)
  have hd : sampleFinal.allDone := by decide
  exact ⟨by decide, hd, (h.2.2.2.1 hd).1, (h.2.2.2.1 hd).2.2.1 (by decide),
    (h.2.2.2.1 hd).2.2.2 (by decide)⟩

/-- C5: one invocation of the callback acknowledges its delivery exactly
once and increments the counter once, the acknowledgment first; so at every
point of the trace of any run the increments done are at most the
acknowledgments done, and the counter, which shows the number of increments
as a Go int, never exceeds the number of acknowledged deliveries; nor does
it in any state that concurrent invocations reach. -/
theorem ack_once_before_increment (size : IntSize) (m : Message) (r : Int)
    (msgs : List Message) :
    (callbackTrace size m r).countP Event.isAck = 1 ∧
    (callbackTrace size m r).count (Event.ack m) = 1 ∧
    (callbackTrace size m r).count Event.incr = 1 ∧
    precedes (Event.ack m) Event.incr (callbackTrace size m r) ∧
    (∀ k, (((deliver size msgs PullState.init).trace.take k).count Event.incr : Int) ≤
      ((deliver size msgs PullState.init).trace.take k).countP Event.isAck) ∧
    (deliver size msgs PullState.init).received =
      wrapInt size (deliver size msgs PullState.init).incrs ∧
    (deliver size msgs PullState.init).received ≤ (deliver size msgs PullState.init).acks ∧
    (∀ (n : Nat) (sched : List Nat) (s : Conc),
      Conc.exec size sched (Conc.init n) = some s → s.received ≤ s.acks) := by
  have key := deliver_take size msgs PullState.init (by simp [PullState.init])
    (by simp [PullState.init])
    (by simp [PullState.init, PullState.incrs, wrapInt_zero])
  refine ⟨callbackTrace_countP_ack size m r, ?_, callbackTrace_count_incr size m r, ?_, ?_,
    key.2.2, ?_,
    fun n sched s h => Conc.received_le_acks size s ((Conc.Inv.init size n).exec sched h)⟩
  · rw [callbackTrace_eq]
    by_cases h : wrapInt size (r + 1) = 10 <;> simp [h]
  · rw [callbackTrace_eq]
    by_cases h : wrapInt size (r + 1) = 10 <;> simp [h, precedes, List.indexOf_cons]
  · intro k
    exact_mod_cast key.1 k
  · have h1 := key.2.2
    have h2 := key.2.1
    have h3 := wrapInt_le size (deliver size msgs PullState.init).incrs
    simp only [PullState.acks, PullState.incrs] at *
    omega

end PubsubGo
